import Mathlib

/-!
Verification of the receipt-extraction pipeline: a shallow embedding of the
deterministic anchor extractor (`backend/services/deterministic_parser.py`),
the post-processor/validator (`backend/services/receipt_parser.py`), the
deterministic/model merge resolver (`backend/services/ollama.py`) and the
image-normalisation pipeline (`backend/services/image_prep.py`), together
with theorems settling the specification's claims about them.

Monetary amounts are modelled as exact rationals (`ℚ`); Python's `round(x, 2)`
is modelled by `round2` (round half to even, Python's rounding mode).  All
inputs of interest are exact multiples of a cent, on which every rounding in
the code is the identity, so binary floating point artefacts are out of scope.
Text is modelled as `List Char`; Python `re` patterns are embedded either via
the small executable regex engine `RGX` below or, where capture groups,
anchors or lookahead make that awkward, as hand-translated scanners whose
doc comments cite the exact pattern they implement.
-/

/-- Apostrophe character, used to build vocabulary strings containing one. -/
def apos : Char := Char.ofNat 39

-- ════════════════════════════════════════════════════════════════════════════
-- Rational rounding (Python `round`, banker's rounding)
-- ════════════════════════════════════════════════════════════════════════════

/-- Round a rational to the nearest integer, halves to even (Python `round`). -/
def rndHalfEven (q : ℚ) : ℤ :=
  let f : ℤ := ⌊q⌋
  let r : ℚ := q - f
  if r < 1/2 then f
  else if 1/2 < r then f + 1
  else if f % 2 = 0 then f else f + 1

/-- Python `round(x, 2)` on exact rationals. -/
def round2 (q : ℚ) : ℚ := (rndHalfEven (q * 100) : ℚ) / 100

/-- Python `round(x, 3)` on exact rationals. -/
def round3 (q : ℚ) : ℚ := (rndHalfEven (q * 1000) : ℚ) / 1000

/-- A rational is an exact number of cents. -/
def IsCents (q : ℚ) : Prop := ∃ n : ℤ, q = (n : ℚ) / 100

/-- Python `max(0.0, ·)` clamp used by `_to_float`. -/
def clamp0 (q : ℚ) : ℚ := max 0 q

-- ════════════════════════════════════════════════════════════════════════════
-- Characters and Python string primitives
-- ════════════════════════════════════════════════════════════════════════════

/-- ASCII decimal digit. -/
def isDig (c : Char) : Bool := '0' ≤ c ∧ c ≤ '9'

/-- Python `\s` whitespace (ASCII subset). -/
def isSpc (c : Char) : Bool :=
  c = ' ' ∨ c = '\t' ∨ c = '\n' ∨ c = '\r' ∨ c = Char.ofNat 11 ∨ c = Char.ofNat 12

/-- ASCII letter. -/
def isAsciiAlpha (c : Char) : Bool :=
  ('a' ≤ c ∧ c ≤ 'z') ∨ ('A' ≤ c ∧ c ≤ 'Z')

/-- Accented Latin-1 letters occurring in this code base's vocabularies. -/
def isAccented (c : Char) : Bool :=
  (Char.ofNat 0xC0 ≤ c ∧ c ≤ Char.ofNat 0xFF ∧ c ≠ Char.ofNat 0xD7 ∧ c ≠ Char.ofNat 0xF7)

/-- Alphabetic character (ASCII plus the Latin-1 letters we model). -/
def isAlphaCh (c : Char) : Bool := isAsciiAlpha c ∨ isAccented c

/-- Python `\w` word character (ASCII plus modelled Latin-1 letters). -/
def isWordCh (c : Char) : Bool := isAlphaCh c ∨ isDig c ∨ c = '_'

/-- Python `str.lower` on ASCII and Latin-1 (the only ranges this code meets). -/
def pyLowerCh (c : Char) : Char :=
  if 'A' ≤ c ∧ c ≤ 'Z' then Char.ofNat (c.toNat + 32)
  else if Char.ofNat 0xC0 ≤ c ∧ c ≤ Char.ofNat 0xDE ∧ c ≠ Char.ofNat 0xD7 then
    Char.ofNat (c.toNat + 32)
  else c

def pyLower (s : List Char) : List Char := s.map pyLowerCh

/-- Base letter of the accented Latin-1 characters used by the source's
vocabularies (`_strip_accents`: NFD normalisation dropping combining marks,
restricted to the characters this repository can encounter; identity
elsewhere). -/
def stripAccentCh (c : Char) : Char :=
  let n := c.toNat
  if n = 0xE0 ∨ n = 0xE1 ∨ n = 0xE2 ∨ n = 0xE3 ∨ n = 0xE4 ∨ n = 0xE5 then 'a'
  else if n = 0xE7 then 'c'
  else if n = 0xE8 ∨ n = 0xE9 ∨ n = 0xEA ∨ n = 0xEB then 'e'
  else if n = 0xEC ∨ n = 0xED ∨ n = 0xEE ∨ n = 0xEF then 'i'
  else if n = 0xF1 then 'n'
  else if n = 0xF2 ∨ n = 0xF3 ∨ n = 0xF4 ∨ n = 0xF5 ∨ n = 0xF6 then 'o'
  else if n = 0xF9 ∨ n = 0xFA ∨ n = 0xFB ∨ n = 0xFC then 'u'
  else if n = 0xFD ∨ n = 0xFF then 'y'
  else if n = 0xC0 ∨ n = 0xC1 ∨ n = 0xC2 ∨ n = 0xC3 ∨ n = 0xC4 ∨ n = 0xC5 then 'A'
  else if n = 0xC7 then 'C'
  else if n = 0xC8 ∨ n = 0xC9 ∨ n = 0xCA ∨ n = 0xCB then 'E'
  else if n = 0xCC ∨ n = 0xCD ∨ n = 0xCE ∨ n = 0xCF then 'I'
  else if n = 0xD1 then 'N'
  else if n = 0xD2 ∨ n = 0xD3 ∨ n = 0xD4 ∨ n = 0xD5 ∨ n = 0xD6 then 'O'
  else if n = 0xD9 ∨ n = 0xDA ∨ n = 0xDB ∨ n = 0xDC then 'U'
  else c

/-- Embedding of `_strip_accents`. -/
def strip_accents (s : List Char) : List Char := s.map stripAccentCh

/-- Python `str.strip()`: drop leading and trailing whitespace. -/
def pyStrip (s : List Char) : List Char :=
  ((s.dropWhile isSpc).reverse.dropWhile isSpc).reverse

/-- Python `text.split("\n")`. -/
def splitNL : List Char → List (List Char)
  | [] => [[]]
  | c :: t =>
    match splitNL t with
    | [] => [[c]]
    | h :: r => if c = '\n' then [] :: h :: r else (c :: h) :: r

/-- Substring containment, Python `needle in hay`. -/
def containsSub (needle hay : List Char) : Bool :=
  match hay with
  | [] => needle.isEmpty
  | _ :: t => needle.isPrefixOf hay || containsSub needle t

/-- Python `" ".join(l)`. -/
def joinSpace : List (List Char) → List Char
  | [] => []
  | [x] => x
  | x :: y :: t => x ++ ' ' :: joinSpace (y :: t)

-- ════════════════════════════════════════════════════════════════════════════
-- A small executable regex engine (classes, sequence, alternation,
-- star over a character class) for the anchor-free search patterns
-- ════════════════════════════════════════════════════════════════════════════

/-- Regular expressions over character classes; Kleene star is only needed
over single-character classes in the source's patterns. -/
inductive RGX where
  | eps : RGX
  | cls (p : Char → Bool) : RGX
  | seq (a b : RGX) : RGX
  | alt (a b : RGX) : RGX
  | star (p : Char → Bool) : RGX

/-- Remainders reachable by consuming a (possibly empty) run of `p`-characters. -/
def starRun (p : Char → Bool) : List Char → List (List Char)
  | [] => [[]]
  | c :: t => (c :: t) :: (if p c then starRun p t else [])

/-- All remainders after matching `r` against a prefix of `s`. -/
def runRE : RGX → List Char → List (List Char)
  | .eps, s => [s]
  | .cls _, [] => []
  | .cls p, c :: t => if p c then [t] else []
  | .seq a b, s => (runRE a s).flatMap (runRE b)
  | .alt a b, s => runRE a s ++ runRE b s
  | .star p, s => starRun p s

/-- Does `r` match some prefix of `s` (Python `re.match` truthiness)? -/
def matchHere (r : RGX) (s : List Char) : Bool := !(runRE r s).isEmpty

/-- Does `r` match a prefix of `s` ending exactly at the end of `s`
(an anchored pattern ending in a dollar anchor)? -/
def matchFull (r : RGX) (s : List Char) : Bool := (runRE r s).contains []

/-- Python `re.search` truthiness: `r` matches somewhere inside `s`. -/
def searchRE (r : RGX) : List Char → Bool
  | [] => matchHere r []
  | c :: t => matchHere r (c :: t) || searchRE r t

/-- Literal character. -/
def chR (c : Char) : RGX := .cls (· = c)

/-- Literal word. -/
def litL : List Char → RGX
  | [] => .eps
  | c :: t => .seq (chR c) (litL t)

def lit (s : String) : RGX := litL s.data

def rseq (l : List RGX) : RGX := l.foldr .seq .eps

def ralt : List RGX → RGX
  | [] => .cls (fun _ => false)
  | [r] => r
  | r :: t => .alt r (ralt t)

/-- Optional item (`?`). -/
def ropt (r : RGX) : RGX := .alt r .eps

/-- Pattern `\s*`. -/
def spStar : RGX := .star isSpc

/-- Pattern `\s+`. -/
def spPlus : RGX := .seq (.cls isSpc) spStar

-- ════════════════════════════════════════════════════════════════════════════
-- Amount grammar (`AMOUNT_RE` and `_parse_amount`)
-- ════════════════════════════════════════════════════════════════════════════

/-- Decimal value of a digit list. -/
def digitsVal : List Char → ℕ
  | [] => 0
  | c :: t => (c.toNat - '0'.toNat) * 10 ^ t.length + digitsVal t

/-- Decimal separator of the amount grammar, `[.,]`. -/
def isSep (c : Char) : Bool := c = '.' ∨ c = ','

/-- Greedy match of `\d{1,6}[.,]\d{2}` at the head of `s` (the capture group
of `AMOUNT_RE`): Python tries the longest digit run (at most 6) first and
backtracks downwards.  Returns the amount in cents. -/
def amountCoreAux (s : List Char) : ℕ → Option ℕ
  | 0 => none
  | k + 1 =>
    match s.drop (k + 1) with
    | sep :: a :: b :: _ =>
      if isSep sep ∧ isDig a ∧ isDig b then
        some (digitsVal (s.take (k + 1)) * 100 +
          (a.toNat - '0'.toNat) * 10 + (b.toNat - '0'.toNat))
      else amountCoreAux s k
    | _ => amountCoreAux s k

def amountCore (s : List Char) : Option ℕ :=
  amountCoreAux s (min 6 (s.takeWhile isDig).length)

/-- Matches `-?\$?(\d{1,6}[.,]\d{2})` at the head of `s` (the optional
currency suffix of `AMOUNT_RE` can always match empty and never affects the
result).  The optional sign and dollar glyph cannot begin the digit group, so
greedy consumption needs no backtracking. -/
def amountAfterAnchor (s : List Char) : Option ℕ :=
  let s1 := match s with
    | '-' :: t => t
    | _ => s
  let s2 := match s1 with
    | '$' :: t => t
    | _ => s1
  amountCore s2

/-- Is a character the anchor class `[\s:=\t]` of `AMOUNT_RE`? -/
def isAmtDelim (c : Char) : Bool := isSpc c ∨ c = ':' ∨ c = '='

/-- One start position of the `AMOUNT_RE` scan: if the head is in the anchor
class `[\s:=\t]`, consume it and match `-?\$?(\d{1,6}[.,]\d{2})` after it. -/
def amountDelimStep : List Char → Option ℕ
  | c :: t => if isAmtDelim c then amountAfterAnchor t else none
  | [] => none

/-- Leftmost search of `AMOUNT_RE`: at each start position try the
empty-width start-of-string branch (at position 0 only), then the
one-delimiter-character branch. -/
def amountScan (atStart : Bool) : List Char → Option ℕ
  | [] => if atStart then amountCore [] else none
  | c :: t =>
    match (if atStart then amountCore (c :: t) else none) with
    | some n => some n
    | none =>
      match amountDelimStep (c :: t) with
      | some n => some n
      | none => amountScan false t

/-- Fallback pattern `(\d{1,6}[.,]\d{2})\s*$` at the head of `s`: like the
amount core but the remainder after the two decimals must be all whitespace. -/
def bareAmountAtAux (s : List Char) : ℕ → Option ℕ
  | 0 => none
  | k + 1 =>
    match s.drop (k + 1) with
    | sep :: a :: b :: rest =>
      if isSep sep ∧ isDig a ∧ isDig b ∧ rest.all isSpc then
        some (digitsVal (s.take (k + 1)) * 100 +
          (a.toNat - '0'.toNat) * 10 + (b.toNat - '0'.toNat))
      else bareAmountAtAux s k
    | _ => bareAmountAtAux s k

def bareAmountAt (s : List Char) : Option ℕ :=
  bareAmountAtAux s (min 6 (s.takeWhile isDig).length)

def bareAmountScan : List Char → Option ℕ
  | [] => none
  | c :: t =>
    match bareAmountAt (c :: t) with
    | some n => some n
    | none => bareAmountScan t

/-- Embedding of `_parse_amount`: search `AMOUNT_RE`, else the bare trailing
two-decimal fallback; the captured `\d{1,6}[.,]\d{2}` group is an exact
number of cents, so `round(float(raw.replace(",", ".")), 2)` is its exact
rational value. -/
def parse_amount_cents (s : List Char) : Option ℕ :=
  match amountScan true s with
  | some n => some n
  | none => bareAmountScan s

def parse_amount (s : List Char) : Option ℚ :=
  (parse_amount_cents s).map (fun n => (n : ℚ) / 100)

-- ════════════════════════════════════════════════════════════════════════════
-- Label patterns (`LABEL_PATTERNS`) and amount anchor extraction
-- ════════════════════════════════════════════════════════════════════════════

/-- Amount fields of the deterministic parser. -/
inductive AField where
  | total | pre_tax | gst | qst | pst | hst
deriving DecidableEq

/-- Embedding of `LABEL_PATTERNS`: `(field, pattern, priority)` rules, in
source order.  Patterns are translated node for node; all label matching is
done on lower-cased accent-stripped text, so case-insensitive literals are
written in lower case. -/
def labelPatterns : List (AField × RGX × ℕ) :=
  [ (.total, rseq [lit "total", spStar,
      ropt (ralt [lit "amount",
        rseq [chR 'a', spStar, lit "payer"],
        lit "du", lit "paid", lit "due"])], 10),
    (.total, rseq [lit "montant", spStar,
      ralt [lit "total", lit "du",
        rseq [chR 'a', spStar, lit "payer"],
        rseq [chR 'd', chR (Char.ofNat 0xFB)]]], 10),
    (.total, rseq [lit "amount", spStar,
      ralt [lit "due", lit "paid", lit "charged", lit "total"]], 10),
    (.total, rseq [lit "balance", spStar,
      ropt (ralt [lit "due", lit "forward",
        rseq [lit "total", ropt (chR 'e')]])], 8),
    (.total, rseq [lit "solde", spStar,
      ropt (ralt [lit "du", lit "total",
        rseq [chR 'a', spStar, lit "payer"]])], 8),
    (.total, rseq [lit "grand", spStar, lit "total"], 12),
    (.total, rseq [lit "total", spStar,
      ralt [rseq [lit "current", spStar, lit "charge", ropt (chR 's')],
        rseq [lit "charge", ropt (chR 's'), spStar,
          lit "including", spStar, lit "tax"]]], 9),
    (.total, rseq [lit "total", spStar, lit "tax", ropt (chR 'e'),
      ropt (chR 's'), spStar, ralt [lit "on", lit "including"]], 2),
    (.pre_tax, rseq [lit "sub", spStar, lit "total"], 8),
    (.pre_tax, rseq [lit "sous", .cls (fun c => isSpc c ∨ c = '-'),
      lit "total"], 8),
    (.pre_tax, rseq [lit "before", spStar, lit "tax"], 8),
    (.pre_tax, rseq [lit "net", spStar,
      ropt (ralt [lit "amount", lit "total"])], 6),
    (.pre_tax, lit "netto", 6),
    (.pre_tax, rseq [lit "monthly", spStar, lit "charge", ropt (chR 's')], 4),
    (.gst, rseq [ralt [lit "gst", lit "tps"], spStar,
      ropt (ralt [lit "included",
        rseq [lit "in", spStar, lit "this", spStar, lit "bill"],
        rseq [lit "on", spStar, lit "charge", ropt (chR 's')]])], 10),
    (.gst, rseq [ralt [lit "gst", lit "tps"], spStar, ropt (chR '@'),
      spStar, chR '5', spStar, ropt (chR '%')], 10),
    (.gst, rseq [lit "federal", spStar, lit "tax"], 6),
    (.qst, rseq [ralt [lit "qst", lit "tvq"], spStar,
      ropt (ralt [lit "included",
        rseq [lit "in", spStar, lit "this", spStar, lit "bill"],
        lit "telecom"])], 10),
    (.qst, rseq [ralt [lit "qst", lit "tvq"], spStar, ropt (chR '@'),
      spStar, chR '9', ropt (.cls isSep), lit "97", ropt (chR '5'),
      spStar, ropt (chR '%')], 10),
    (.qst, rseq [lit "provincial", spStar, lit "tax"], 6),
    (.pst, rseq [lit "pst", spStar, ropt (ralt [chR '@', lit "tax"])], 8),
    (.pst, rseq [lit "rst", spStar, ropt (ralt [chR '@', lit "tax"])], 6),
    (.hst, rseq [lit "hst", spStar, ropt (ralt [lit "tax", chR '@'])], 8) ]

/-- Tuple recorded per matching rule: `(amount, priority, line_idx)`. -/
abbrev AnchorEntry := ℕ × ℕ × ℕ

/-- Exact rational value of an amount in cents. -/
def centsToQ (n : ℕ) : ℚ := (n : ℚ) / 100

/-- Per-line cleaning used by `_extract_amounts`:
`_strip_accents(line.lower().strip())`. -/
def cleanLabel (line : List Char) : List Char :=
  strip_accents (pyStrip (pyLower line))

/-- In-order list of all `(field, (amount, priority, line_idx))` matches,
mirroring the scan loop of `_extract_amounts`: lines outermost, rules in
`LABEL_PATTERNS` order, an entry recorded only when the label pattern matches
the cleaned line and `_parse_amount` yields a strictly positive amount.
Amounts are carried in exact cents (`_parse_amount`'s value is
`cents / 100`, and `amount > 0` iff `0 < cents`). -/
def foundEntries (lines : List (List Char)) : List (AField × AnchorEntry) :=
  (lines.enum.flatMap (fun li =>
    labelPatterns.filterMap (fun rule =>
      if searchRE rule.2.1 (cleanLabel li.2) then
        match parse_amount_cents li.2 with
        | some a => if 0 < a then some (rule.1, a, rule.2.2, li.1) else none
        | none => none
      else none)))

/-- Matches recorded for one field, in scan order. -/
def foundFor (lines : List (List Char)) (f : AField) : List AnchorEntry :=
  (foundEntries lines).filterMap (fun e => if e.1 = f then some e.2 else none)

/-- Resolution for `total`: among the matches of globally highest priority,
the bottom-most (largest line index; Python `max` keeps the earliest of
equals, as does this fold). -/
def argLast {α : Type} (p : α × ℕ × ℕ) (ps : List (α × ℕ × ℕ)) :
    α × ℕ × ℕ :=
  ps.foldl (fun b e => if b.2.2 < e.2.2 then e else b) p

def totalBest (h : AnchorEntry) (t : List AnchorEntry) : ℕ :=
  (h :: t).foldl (fun m e => max m e.2.1) 0

def pickTotal (h : AnchorEntry) (t : List AnchorEntry) : AnchorEntry :=
  match (h :: t).filter (fun e => e.2.1 = totalBest h t) with
  | [] => h
  | p :: ps => argLast p ps

/-- Selection of the best element under the key `(x.2.1, -x.2.2)`: Python's
`max(l, key=lambda x: (x[1], -x[2]))` keeps the first element among equal
keys, as does this fold (a later element replaces only on a strictly greater
key); a stable sort by `(-key1, key2)` followed by taking the head is the
same selection. -/
def argBest {α : Type} (h : α × ℕ × ℕ) (t : List (α × ℕ × ℕ)) : α × ℕ × ℕ :=
  t.foldl (fun b e =>
    if b.2.1 < e.2.1 ∨ (b.2.1 = e.2.1 ∧ e.2.2 < b.2.2) then e else b) h

/-- Resolution for every other amount field: highest priority, ties broken by
the smallest line index (`max` with key `(priority, -idx)`, keeping the
earliest of equals). -/
def pickOther (h : AnchorEntry) (t : List AnchorEntry) : AnchorEntry :=
  argBest h t

/-- Embedding of `DeterministicParser._extract_amounts` (values in cents;
the recorded Python value of an entry is its cents divided by 100). -/
def extract_amounts (lines : List (List Char)) (f : AField) : Option ℕ :=
  match foundFor lines f with
  | [] => none
  | h :: t => some ((if f = .total then pickTotal h t else pickOther h t).1)

-- ════════════════════════════════════════════════════════════════════════════
-- Date grammar (`DATE_FORMATS`, `_parse_iso_date`, `_valid_iso`)
-- ════════════════════════════════════════════════════════════════════════════

/-- Accented letters used by the French month vocabulary. -/
def eAcute : Char := Char.ofNat 0xE9

def uCirc : Char := Char.ofNat 0xFB

/-- Embedding of `FRENCH_MONTHS` as an ordered association list (Python dict
insertion order). -/
def frenchMonths : List (List Char × ℕ) :=
  [ ("janvier".data, 1), ("fevrier".data, 2),
    ('f' :: eAcute :: "vrier".data, 2), ("mars".data, 3),
    ("avril".data, 4), ("mai".data, 5), ("juin".data, 6), ("juillet".data, 7),
    ("aout".data, 8), ('a' :: 'o' :: uCirc :: "t".data, 8),
    ("septembre".data, 9), ("octobre".data, 10),
    ("novembre".data, 11), ("decembre".data, 12),
    ('d' :: eAcute :: "cembre".data, 12),
    ("janv".data, 1), ('f' :: eAcute :: "vr".data, 2), ("fevr".data, 2),
    ("juil".data, 7), ("sept".data, 9) ]

/-- Embedding of `ENG_MONTHS` as an ordered association list. -/
def engMonths : List (List Char × ℕ) :=
  [ ("january".data, 1), ("february".data, 2), ("march".data, 3),
    ("april".data, 4), ("may".data, 5), ("june".data, 6), ("july".data, 7),
    ("august".data, 8), ("september".data, 9), ("october".data, 10),
    ("november".data, 11), ("december".data, 12),
    ("jan".data, 1), ("feb".data, 2), ("mar".data, 3), ("apr".data, 4),
    ("jun".data, 6), ("jul".data, 7), ("aug".data, 8), ("sep".data, 9),
    ("oct".data, 10), ("nov".data, 11), ("dec".data, 12) ]

/-- Embedding of `ALL_MONTHS = dict(FRENCH_MONTHS, then ENG_MONTHS)`: the two
key sets are disjoint, so the merged dict keeps both in insertion order. -/
def allMonths : List (List Char × ℕ) := frenchMonths ++ engMonths

/-- Case-insensitive match of a lower-case pattern word at the head of `s`
(the patterns are compiled with `re.IGNORECASE`); returns the rest. -/
def ciPrefix : List Char → List Char → Option (List Char)
  | [], s => some s
  | _ :: _, [] => none
  | p :: pt, c :: ct => if pyLowerCh c = p then ciPrefix pt ct else none

/-- Word boundary `\b` after a match ending in a word character: the
remainder must not start with a word character. -/
def bAfter : List Char → Bool
  | [] => true
  | c :: _ => !isWordCh c

/-- Date separator of the numeric patterns, `[/.-]` (pattern 1 uses only
`[- or /]`). -/
def isDateSep2 (c : Char) : Bool := c = '-' ∨ c = '/' ∨ c = '.'

/-- Greedy `\d{1,2}`: the two-digit reading first, then one digit. -/
def grab12 : List Char → List (List Char × List Char)
  | a :: b :: t =>
    if isDig a ∧ isDig b then [([a, b], t), ([a], b :: t)]
    else if isDig a then [([a], b :: t)] else []
  | [a] => if isDig a then [([a], [])] else []
  | [] => []

/-- Exactly `\d{4}`. -/
def grab4 : List Char → Option (List Char × List Char)
  | a :: b :: c :: d :: t =>
    if isDig a ∧ isDig b ∧ isDig c ∧ isDig d then some ([a, b, c, d], t)
    else none
  | _ => none

/-- Pattern 1, `\b(\d{4}[- or /]\d{2}[- or /]\d{2})\b`, matched at the head. Returns
the rest after the match. -/
def matchDF1 : List Char → Option (List Char)
  | a :: b :: c :: d :: s1 :: e :: f :: s2 :: g :: h :: rest =>
    if isDig a ∧ isDig b ∧ isDig c ∧ isDig d ∧ (s1 = '-' ∨ s1 = '/') ∧
        isDig e ∧ isDig f ∧ (s2 = '-' ∨ s2 = '/') ∧ isDig g ∧ isDig h ∧
        bAfter rest then
      some rest
    else none
  | _ => none

/-- Pattern 2, `\b(\d{1,2}[/.-]\d{1,2}[/.-]\d{4})\b`, at the head. -/
def matchDF2 (s : List Char) : Option (List Char) :=
  (grab12 s).findSome? fun d1 =>
    match d1.2 with
    | sep1 :: r2 =>
      if isDateSep2 sep1 then
        (grab12 r2).findSome? fun d2 =>
          match d2.2 with
          | sep2 :: r4 =>
            if isDateSep2 sep2 then
              match grab4 r4 with
              | some y => if bAfter y.2 then some y.2 else none
              | none => none
            else none
          | [] => none
      else none
    | [] => none

/-- Tail common to the month-name patterns: `\w*\.?\s*,?\s*\d{4}\b` with the
greedy `\w*` backtracking from its longest run (`\w*` may eat the year's
digits, so shorter runs must be tried). -/
def monthTailAux (r : List Char) : ℕ → Option (List Char)
  | 0 =>
    let r1 := match r with
      | '.' :: t => t
      | _ => r
    let r2 := r1.dropWhile isSpc
    let r3 := match r2 with
      | ',' :: t => t
      | _ => r2
    let r4 := r3.dropWhile isSpc
    match grab4 r4 with
    | some y => if bAfter y.2 then some y.2 else none
    | none => none
  | k + 1 =>
    match monthTailAux (r.drop (k + 1)) 0 with
    | some rest => some rest
    | none => monthTailAux r k

def monthTail (r : List Char) : Option (List Char) :=
  monthTailAux r (r.takeWhile isWordCh).length

/-- Month-name alternation `(?:name1|name2|…)` in the given order, with
backtracking into the common tail when a name matches but the tail fails. -/
def monthAlt (names : List (List Char × ℕ)) (s : List Char) :
    Option (List Char) :=
  names.findSome? fun nm =>
    match ciPrefix nm.1 s with
    | some rest => monthTail rest
    | none => none

/-- Pattern 3, `\b(\d{1,2}\s+(?:ALL_MONTHS)\w*\.?\s*,?\s*\d{4})\b`. -/
def matchDF3 (s : List Char) : Option (List Char) :=
  (grab12 s).findSome? fun d1 =>
    match d1.2 with
    | c :: r2 =>
      if isSpc c then monthAlt allMonths (r2.dropWhile isSpc) else none
    | [] => none

/-- Pattern 4, `\b((?:ENG_MONTHS)\w*\.?\s+\d{1,2}\s*,?\s*\d{4})\b`: month
word, optional period, at least one space, day, optional comma, year. -/
def matchDF4 (s : List Char) : Option (List Char) :=
  engMonths.findSome? fun nm =>
    match ciPrefix nm.1 s with
    | some rest => matchDF4Tail rest (rest.takeWhile isWordCh).length
    | none => none
where
  matchDF4Tail (r : List Char) : ℕ → Option (List Char)
  | 0 =>
    let r1 := match r with
      | '.' :: t => t
      | _ => r
    match r1 with
    | c :: r2 =>
      if isSpc c then
        (grab12 (r2.dropWhile isSpc)).findSome? fun d1 =>
          let r3 := d1.2.dropWhile isSpc
          let r4 := match r3 with
            | ',' :: t => t
            | _ => r3
          match grab4 (r4.dropWhile isSpc) with
          | some y => if bAfter y.2 then some y.2 else none
          | none => none
      else none
    | [] => none
  | k + 1 =>
    match matchDF4Tail (r.drop (k + 1)) 0 with
    | some rest => some rest
    | none => matchDF4Tail r k

/-- Pattern 5, `\b((?:le\s+)?\d{1,2}\s+(?:FRENCH_MONTHS)\w*\.?\s*,?\s*\d{4})\b`:
the optional `le` prefix is tried first (greedy). -/
def matchDF5Core (s : List Char) : Option (List Char) :=
  (grab12 s).findSome? fun d1 =>
    match d1.2 with
    | c :: r2 =>
      if isSpc c then monthAlt frenchMonths (r2.dropWhile isSpc) else none
    | [] => none

def matchDF5 (s : List Char) : Option (List Char) :=
  match ciPrefix "le".data s with
  | some r =>
    match r with
    | c :: r2 =>
      (if isSpc c then matchDF5Core (r2.dropWhile isSpc) else none).orElse
        (fun _ => matchDF5Core s)
    | [] => matchDF5Core s
  | none => matchDF5Core s

/-- Non-overlapping left-to-right iteration of one pattern over a line
(`finditer`): at each position, a match must have a word boundary on its
left (all five patterns start with `\b` followed by a word character), and
scanning resumes after a match.  Fuel bounds the recursion by the line
length. -/
def scanMatcher (m : List Char → Option (List Char)) :
    ℕ → Bool → List Char → List (List Char)
  | 0, _, _ => []
  | fuel + 1, prevOk, s =>
    match (if prevOk then m s else none) with
    | some rest =>
      let g := s.take (s.length - rest.length)
      g :: scanMatcher m fuel
        (match g.getLast? with
         | some c => !isWordCh c
         | none => prevOk) rest
    | none =>
      match s with
      | [] => []
      | c :: t => scanMatcher m fuel (!isWordCh c) t

/-- All `DATE_FORMATS` matches of a line, pattern by pattern in source
order, each pattern iterated with `finditer` semantics. -/
def findAllDates (line : List Char) : List (List Char) :=
  [matchDF1, matchDF2, matchDF3, matchDF4, matchDF5].flatMap
    (fun m => scanMatcher m (line.length + 1) true line)

/-- Maximal digit runs of a string (`re.findall(r"\d+", s)`). -/
def digitRuns : List Char → List (List Char)
  | [] => []
  | c :: t =>
    if isDig c then
      ((c :: t).takeWhile isDig) :: digitRuns ((c :: t).dropWhile isDig)
    else digitRuns t
termination_by s => s.length
decreasing_by
  · simp only [List.takeWhile_cons_of_pos, List.dropWhile_cons_of_pos, *]
    exact Nat.lt_succ_of_le (List.dropWhile_sublist isDig (l := t)).length_le
  · simp

/-- Two-digit zero-padded decimal rendering (`f"{n:02d}"` for `n < 100`). -/
def pad2 (n : ℕ) : List Char :=
  [Char.ofNat ('0'.toNat + n / 10 % 10), Char.ofNat ('0'.toNat + n % 10)]

/-- Embedding of `_parse_iso_date`. -/
def parse_iso_date (s0 : List Char) : Option (List Char) :=
  let s1 := pyLower (pyStrip s0)
  let s := match ciPrefix "le".data s1 with
    | some (c :: t) => if isSpc c then (c :: t).dropWhile isSpc else s1
    | _ => s1
  match isoShape s with
  | some iso => some iso
  | none =>
    match numShape s with
    | some iso => some iso
    | none =>
      allMonths.findSome? fun nm =>
        if containsSub nm.1 s then
          let numbers := digitRuns s
          let year := numbers.find? (fun n => n.length = 4)
          let days := numbers.filter (fun n =>
            year ≠ some n ∧ 1 ≤ digitsVal n ∧ digitsVal n ≤ 31)
          match year, days with
          | some y, d :: _ => some (y ++ '-' :: pad2 nm.2 ++ '-' :: pad2 (digitsVal d))
          | _, _ => none
        else none
where
  /-- Branch `^(\d{4})[- or /](\d{2})[- or /](\d{2})$` of `_parse_iso_date`. -/
  isoShape : List Char → Option (List Char)
  | [a, b, c, d, s1, e, f, s2, g, h] =>
    if isDig a ∧ isDig b ∧ isDig c ∧ isDig d ∧ (s1 = '-' ∨ s1 = '/') ∧
        isDig e ∧ isDig f ∧ (s2 = '-' ∨ s2 = '/') ∧ isDig g ∧ isDig h then
      some [a, b, c, d, '-', e, f, '-', g, h]
    else none
  | _ => none
  /-- Branch `^(\d{1,2})[/.-](\d{1,2})[/.-](\d{4})$` of `_parse_iso_date`:
  a number greater than 12 in the first slot is the day, else day/month are
  read in first/second order swapped (`a>12` means `a` is the day). -/
  numShape (s : List Char) : Option (List Char) :=
    (grab12 s).findSome? fun d1 =>
      match d1.2 with
      | sep1 :: r2 =>
        if isDateSep2 sep1 then
          (grab12 r2).findSome? fun d2 =>
            match d2.2 with
            | sep2 :: r4 =>
              if isDateSep2 sep2 then
                match grab4 r4 with
                | some (y, []) =>
                  let a := digitsVal d1.1
                  let b := digitsVal d2.1
                  if 12 < a then some (y ++ '-' :: pad2 b ++ '-' :: pad2 a)
                  else some (y ++ '-' :: pad2 a ++ '-' :: pad2 b)
                | _ => none
              else none
            | [] => none
        else none
      | [] => none

/-- Days in a month with the Gregorian leap rule (what
`datetime.strptime(iso, "%Y-%m-%d")` accepts). -/
def daysInMonth (y m : ℕ) : ℕ :=
  if m = 2 then
    if y % 4 = 0 ∧ (y % 100 ≠ 0 ∨ y % 400 = 0) then 29 else 28
  else if m = 4 ∨ m = 6 ∨ m = 9 ∨ m = 11 then 30
  else 31

/-- Embedding of `_valid_iso`: the string parses as a real calendar date
`YYYY-MM-DD` and the year lies in 2000–2035. -/
def valid_iso (s : List Char) : Bool :=
  match s with
  | [a, b, c, d, h1, e, f, h2, g, h] =>
    (isDig a ∧ isDig b ∧ isDig c ∧ isDig d ∧ h1 = '-' ∧ isDig e ∧ isDig f ∧
      h2 = '-' ∧ isDig g ∧ isDig h) ∧
    (let y := digitsVal [a, b, c, d]
     let m := digitsVal [e, f]
     let dd := digitsVal [g, h]
     1 ≤ m ∧ m ≤ 12 ∧ 1 ≤ dd ∧ dd ≤ daysInMonth y m ∧ 2000 ≤ y ∧ y ≤ 2035)
  | _ => false

-- ════════════════════════════════════════════════════════════════════════════
-- Date rejection, confirmation, scoring (`_DATE_REJECT`, `_DATE_CONFIRM`,
-- `DeterministicParser._extract_date`)
-- ════════════════════════════════════════════════════════════════════════════

/-- Embedding of `_DATE_REJECT`:
`(next|expir|valid\s*until|return|best\s*before|due\s*date|prochaine|renouvellement|void\s*after|print)`. -/
def dateReject : RGX :=
  ralt [lit "next", lit "expir",
    rseq [lit "valid", spStar, lit "until"],
    lit "return",
    rseq [lit "best", spStar, lit "before"],
    rseq [lit "due", spStar, lit "date"],
    lit "prochaine", lit "renouvellement",
    rseq [lit "void", spStar, lit "after"],
    lit "print"]

/-- Embedding of `_DATE_CONFIRM`: all alternatives are anchored at the start
of the line; the last one, `^date\b(?!\s*d'expir|\s*limite|\s*de\s*retour)`,
is a negative lookahead translated directly. -/
def dateConfirm (s : List Char) : Bool :=
  matchHere (rseq [lit "bill", spStar, lit "date"]) s ||
  matchHere (rseq [lit "invoice", spStar, lit "date"]) s ||
  matchHere (rseq [lit "date", spStar, lit "de", spStar, lit "facturation"]) s ||
  matchHere (lit "transaction") s ||
  matchHere (lit "purchased") s ||
  matchHere (rseq [lit "date", spStar, chR 'd', chR apos, lit "achat"]) s ||
  (match ciPrefix "date".data s with
   | some rest =>
     bAfter rest &&
     !(matchHere (rseq [spStar, chR 'd', chR apos, lit "expir"]) rest ||
       matchHere (rseq [spStar, lit "limite"]) rest ||
       matchHere (rseq [spStar, lit "de", spStar, lit "retour"]) rest)
   | none => false)

/-- Clock-time pattern `\d{1,2}:\d{2}` searched in the raw line. -/
def timeRE : RGX :=
  rseq [.cls isDig, ropt (.cls isDig), chR ':', .cls isDig, .cls isDig]

/-- A scored date candidate `(iso, score, line_idx)`. -/
abbrev DateCand := List Char × ℕ × ℕ

/-- Candidate generation loop of `_extract_date`: lines whose accent-stripped
lower-cased form matches `_DATE_REJECT` contribute nothing; every valid date
found in a surviving line is scored +10 for a `_DATE_CONFIRM` label, +5 for
an adjacent clock time, +2 when within the first 40% of lines (`idx <
total_lines * 0.4`, i.e. `5*idx < 2*total_lines` exactly). -/
def dateScore (total idx : ℕ) (line : List Char) : ℕ :=
  (if dateConfirm (strip_accents (pyLower line)) then 10 else 0) +
  (if searchRE timeRE line then 5 else 0) +
  (if 5 * idx < 2 * total then 2 else 0)

/-- Candidates contributed by one line. -/
def dateCandLine (total idx : ℕ) (line : List Char) : List DateCand :=
  if searchRE dateReject (strip_accents (pyLower line)) then []
  else
    (findAllDates line).filterMap fun g =>
      match parse_iso_date g with
      | some iso =>
        if valid_iso iso then some (iso, dateScore total idx line, idx)
        else none
      | none => none

def dateCandidates (lines : List (List Char)) : List DateCand :=
  lines.enum.flatMap fun li => dateCandLine (max lines.length 1) li.1 li.2

/-- Selection of `_extract_date`: stable sort by `(-score, idx)` and take the
head, i.e. a fold keeping the earliest candidate among those of maximal
score and, within a score, minimal line index. -/
def pickDate (h : DateCand) (t : List DateCand) : DateCand :=
  argBest h t

/-- Embedding of `DeterministicParser._extract_date`. -/
def extract_date (lines : List (List Char)) : Option (List Char) :=
  match dateCandidates lines with
  | [] => none
  | h :: t => some (pickDate h t).1

-- ════════════════════════════════════════════════════════════════════════════
-- Vendor extraction (`KNOWN_VENDORS`, `DOMAIN_VENDORS`,
-- `DeterministicParser._extract_vendor`)
-- ════════════════════════════════════════════════════════════════════════════

/-- Grave-a character used by the buyer-label vocabulary. -/
def aGrave : Char := Char.ofNat 0xE0

def cCedil : Char := Char.ofNat 0xE7

/-- Embedding of `KNOWN_VENDORS` as an ordered association list (Python dict
iteration order is insertion order).  Values containing an apostrophe are
assembled with `apos`. -/
def knownVendors : List (List Char × List Char) :=
  [ ("home depot".data, "Home Depot".data), ("rona".data, "Rona".data),
    ("canadian tire".data, "Canadian Tire".data),
    ("home hardware".data, "Home Hardware".data),
    ("lowes".data, "Lowes".data),
    ("lowe".data ++ [apos] ++ "s".data, "Lowes".data),
    ("iga".data, "IGA".data), ("metro".data, "Metro".data),
    ("maxi".data, "Maxi".data), ("super c".data, "Super C".data),
    ("loblaws".data, "Loblaws".data), ("provigo".data, "Provigo".data),
    ("walmart".data, "Walmart".data), ("costco".data, "Costco".data),
    ("dollarama".data, "Dollarama".data),
    ("giant tiger".data, "Giant Tiger".data),
    ("pharmaprix".data, "Pharmaprix".data),
    ("shoppers".data, "Shoppers Drug Mart".data),
    ("jean coutu".data, "Jean Coutu".data), ("uniprix".data, "Uniprix".data),
    ("brunet".data, "Brunet".data),
    ("tim hortons".data, "Tim Hortons".data),
    ("starbucks".data, "Starbucks".data),
    ("mcdonald".data, "McDonald".data ++ [apos] ++ "s".data),
    ("subway".data, "Subway".data), ("a&w".data, "A&W".data),
    ("burger king".data, "Burger King".data),
    ("pizza hut".data, "Pizza Hut".data),
    ("domino".data, "Domino".data ++ [apos] ++ "s".data),
    ("bk".data, "Burger King".data),
    ("virgin plus".data, "Virgin Plus".data),
    ("virgin mobile".data, "Virgin Plus".data),
    ("bell".data, "Bell".data), ("rogers".data, "Rogers".data),
    ("telus".data, "Telus".data), ("videotron".data, "Videotron".data),
    ("vid".data ++ [eAcute] ++ "otron".data, "Videotron".data),
    ("fido".data, "Fido".data), ("koodo".data, "Koodo".data),
    ("fizz".data, "Fizz".data),
    ("hydro-qu".data ++ [eAcute] ++ "bec".data, "Hydro-Quebec".data),
    ("hydro-quebec".data, "Hydro-Quebec".data),
    ("hydro qu".data ++ [eAcute] ++ "bec".data, "Hydro-Quebec".data),
    ("enbridge".data, "Enbridge".data),
    ("gaz metro".data, "Energir".data), ("energir".data, "Energir".data),
    ("saq".data, "SAQ".data), ("ikea".data, "IKEA".data),
    ("best buy".data, "Best Buy".data), ("staples".data, "Staples".data),
    ("winners".data, "Winners".data), ("homesense".data, "HomeSense".data),
    ("simons".data, "Simons".data), ("reitmans".data, "Reitmans".data),
    ("ville de montreal".data, "Ville de Montreal".data),
    ("ville de qu".data ++ [eAcute] ++ "bec".data, "Ville de Quebec".data),
    ("gouvernement du qu".data ++ [eAcute] ++ "bec".data,
      "Gouvernement du Quebec".data),
    ("revenu qu".data ++ [eAcute] ++ "bec".data, "Revenu Quebec".data),
    ("cra".data, "Canada Revenue Agency".data),
    ("service canada".data, "Service Canada".data),
    ("amazon".data, "Amazon".data), ("apple".data, "Apple".data),
    ("google".data, "Google".data), ("microsoft".data, "Microsoft".data),
    ("adobe".data, "Adobe".data), ("ebay".data, "eBay".data),
    ("paypal".data, "PayPal".data), ("etsy".data, "Etsy".data),
    ("shopify".data, "Shopify".data) ]

/-- Embedding of `DOMAIN_VENDORS` as an ordered association list. -/
def domainVendors : List (List Char × List Char) :=
  [ ("virginplus.ca".data, "Virgin Plus".data),
    ("virginmobile.ca".data, "Virgin Plus".data),
    ("bell.ca".data, "Bell".data), ("bell.net".data, "Bell".data),
    ("rogers.com".data, "Rogers".data), ("fido.ca".data, "Fido".data),
    ("telus.com".data, "Telus".data), ("koodo.com".data, "Koodo".data),
    ("videotron.com".data, "Videotron".data),
    ("videotron.ca".data, "Videotron".data),
    ("hydroquebec.com".data, "Hydro-Quebec".data),
    ("amazon.ca".data, "Amazon".data), ("amazon.com".data, "Amazon".data),
    ("homedepot.ca".data, "Home Depot".data),
    ("homedepot.com".data, "Home Depot".data),
    ("canadiantire.ca".data, "Canadian Tire".data),
    ("walmart.ca".data, "Walmart".data), ("walmart.com".data, "Walmart".data),
    ("costco.ca".data, "Costco".data), ("costco.com".data, "Costco".data),
    ("iga.net".data, "IGA".data), ("metro.ca".data, "Metro".data),
    ("pharmaprix.ca".data, "Pharmaprix".data),
    ("shoppersdrugmart.ca".data, "Shoppers Drug Mart".data),
    ("jeancoutu.com".data, "Jean Coutu".data),
    ("saq.com".data, "SAQ".data), ("ikea.com".data, "IKEA".data),
    ("staples.ca".data, "Staples".data), ("bestbuy.ca".data, "Best Buy".data),
    ("rona.ca".data, "Rona".data), ("lowes.ca".data, "Lowes".data),
    ("ville.montreal.qc.ca".data, "Ville de Montreal".data),
    ("montreal.ca".data, "Ville de Montreal".data),
    ("revenuquebec.ca".data, "Revenu Quebec".data),
    ("canada.ca".data, "Government of Canada".data),
    ("ebay.ca".data, "eBay".data), ("ebay.com".data, "eBay".data),
    ("paypal.com".data, "PayPal".data), ("paypal.ca".data, "PayPal".data),
    ("etsy.com".data, "Etsy".data) ]

/-- Any character except newline (`.` without `re.DOTALL`). -/
def dotStar : RGX := .star (fun c => c ≠ '\n')

/-- Embedding of `marketplace_signals`: `(pattern, canonical)` pairs in
source order. -/
def marketplaceSignals : List (RGX × List Char) :=
  [ (ralt [rseq [lit "ebay", chR '.', chR 'c'],
      rseq [lit "order", spPlus, lit "from", spPlus, lit "ebay"],
      rseq [lit "ebay", spPlus, lit "order"],
      rseq [lit "sold", spPlus, lit "on", spPlus, lit "ebay"]], "eBay".data),
    (ralt [rseq [lit "amazon", chR '.', chR 'c'],
      rseq [lit "fulfilled", spPlus, lit "by", spPlus, lit "amazon"],
      rseq [lit "sold", spPlus, lit "by", dotStar, lit "amazon"]],
      "Amazon".data),
    (ralt [rseq [lit "paypal", chR '.', chR 'c'],
      rseq [lit "payment", spPlus, lit "via", spPlus, lit "paypal"],
      rseq [lit "paypal", spPlus, lit "receipt"]], "PayPal".data),
    (ralt [rseq [lit "etsy", chR '.', chR 'c'],
      rseq [lit "etsy", spPlus, lit "order"],
      rseq [lit "etsy", spPlus, lit "receipt"]], "Etsy".data) ]

/-- Label alternation shared by `_BUYER_LABELS`. -/
def buyerLabelAlts : RGX :=
  ralt [rseq [lit "ship", spStar, lit "to"],
    rseq [lit "bill", spStar, lit "to"],
    rseq [lit "sold", spStar, lit "to"],
    rseq [lit "deliver", spStar, lit "to"],
    lit "buyer", lit "customer",
    rseq [lit "livrer", spStar, ralt [chR 'a', chR aGrave]],
    rseq [lit "factur", .cls (fun c => c = 'e' ∨ c = eAcute), spStar,
      ralt [chR 'a', chR aGrave]],
    lit "acheteur",
    rseq [lit "nom", spStar, lit "du", spStar, lit "client"]]

/-- Embedding of `_BUYER_LABELS` (anchored at both ends:
`^( … )\s*[:\-]?\s*$`), applied to the lower-cased line because the pattern
is compiled with `re.IGNORECASE`. -/
def buyerLabelLine (s : List Char) : Bool :=
  matchFull (rseq [buyerLabelAlts, spStar,
    ropt (.cls (fun c => c = ':' ∨ c = '-')), spStar]) s

/-- Embedding of `_BUYER_INLINE` (`^( … )\s*[:\-]`). -/
def buyerInline (s : List Char) : Bool :=
  matchHere (rseq [ralt [rseq [lit "ship", spStar, lit "to"],
    rseq [lit "bill", spStar, lit "to"],
    rseq [lit "sold", spStar, lit "to"],
    rseq [lit "deliver", spStar, lit "to"],
    lit "buyer", lit "customer", lit "livrer",
    rseq [lit "factur", .cls (fun c => c = 'e' ∨ c = eAcute)],
    lit "acheteur"], spStar, .cls (fun c => c = ':' ∨ c = '-')]) s

/-- Character class of `^[\d\s\-\(\)\+\.]+$` (pure number / phone lines). -/
def numericJunkCh (c : Char) : Bool :=
  isDig c ∨ isSpc c ∨ c = '-' ∨ c = '(' ∨ c = ')' ∨ c = '+' ∨ c = '.'

def pureNumericLine (s : List Char) : Bool :=
  matchFull (rseq [.cls numericJunkCh, .star numericJunkCh]) s

/-- Pattern `^\d+\s+\w` (line starting with a street number). -/
def streetNumberLine (s : List Char) : Bool :=
  matchHere (rseq [.cls isDig, .star isDig, .cls isSpc, .star isSpc,
    .cls isWordCh]) s

/-- Receipt-metadata keyword search
`(receipt|reçu|facture|invoice|bill|date|tel:|www\.|http)` (`re.I`). -/
def metadataSearch (s : List Char) : Bool :=
  searchRE (ralt [lit "receipt",
    rseq [lit "re", chR cCedil, chR 'u'],
    lit "facture", lit "invoice", lit "bill", lit "date",
    rseq [lit "tel", chR ':'],
    rseq [lit "www", chR '.'], lit "http"]) s

/-- Lower-case to upper-case, inverse of `pyLowerCh` on the ranges we model. -/
def pyUpperCh (c : Char) : Char :=
  if 'a' ≤ c ∧ c ≤ 'z' then Char.ofNat (c.toNat - 32)
  else if Char.ofNat 0xE0 ≤ c ∧ c ≤ Char.ofNat 0xFE ∧ c ≠ Char.ofNat 0xF7 then
    Char.ofNat (c.toNat - 32)
  else c

/-- A lower-case cased character (ASCII or modelled Latin-1). -/
def isLowerCased (c : Char) : Bool :=
  ('a' ≤ c ∧ c ≤ 'z') ∨
    (Char.ofNat 0xDF ≤ c ∧ c ≤ Char.ofNat 0xFF ∧ c ≠ Char.ofNat 0xF7)

/-- An upper-case cased character. -/
def isUpperCased (c : Char) : Bool :=
  ('A' ≤ c ∧ c ≤ 'Z') ∨
    (Char.ofNat 0xC0 ≤ c ∧ c ≤ Char.ofNat 0xDE ∧ c ≠ Char.ofNat 0xD7)

def isCased (c : Char) : Bool := isLowerCased c ∨ isUpperCased c

/-- Python `str.isupper`: at least one cased character and no lower-case
cased character. -/
def pyIsUpper (s : List Char) : Bool :=
  s.any isCased && s.all (fun c => !isLowerCased c)

/-- Python `str.title`: a cased character starts a word (upper-cased) when
the previous character is not alphabetic, and is lower-cased otherwise. -/
def pyTitleGo : Bool → List Char → List Char
  | _, [] => []
  | prevAlpha, c :: t =>
    if isAlphaCh c then
      (if prevAlpha then pyLowerCh c else pyUpperCh c) :: pyTitleGo true t
    else c :: pyTitleGo false t

def pyTitle (s : List Char) : List Char := pyTitleGo false s

/-- First-line vendor heuristic of `_extract_vendor` (the loop over
`lines[:8]` with its `skip_next` state): buyer-label lines mark the next
line as a personal name to skip; inline buyer lines, pure-numeric lines,
street-number lines, very short lines and receipt-metadata lines are
skipped; the first surviving line is the vendor, title-cased when it is all
upper case. -/
def vendorHeur : Bool → List (List Char) → Option (List Char)
  | _, [] => none
  | skipNext, line :: rest =>
    let stripped := strip_accents (pyStrip line)
    if skipNext then vendorHeur false rest
    else if buyerLabelLine (pyLower stripped) then vendorHeur true rest
    else if buyerInline (pyLower stripped) then vendorHeur false rest
    else if pureNumericLine stripped then vendorHeur false rest
    else if streetNumberLine stripped then vendorHeur false rest
    else if stripped.length < 3 then vendorHeur false rest
    else if metadataSearch (pyLower stripped) then vendorHeur false rest
    else some (if pyIsUpper stripped then pyTitle stripped else stripped)

/-- Embedding of `DeterministicParser._extract_vendor`: domain match in the
full text, then known-vendor containment in the first 10 lines
(accent-stripped, case-insensitive), then marketplace text signals, then the
first-line heuristic over the first 8 lines. -/
def extract_vendor (lines : List (List Char)) (full_text : List Char) :
    Option (List Char) :=
  match domainVendors.findSome? (fun dv =>
      if containsSub dv.1 (pyLower full_text) then some dv.2 else none) with
  | some v => some v
  | none =>
    let top_text := strip_accents (pyLower (joinSpace (lines.take 10)))
    match knownVendors.findSome? (fun kv =>
        if containsSub (strip_accents kv.1) top_text then some kv.2
        else none) with
    | some v => some v
    | none =>
      let full_lower := strip_accents (pyLower full_text)
      match marketplaceSignals.findSome? (fun ms =>
          if searchRE ms.1 full_lower then some ms.2 else none) with
      | some v => some v
      | none => vendorHeur false (lines.take 8)

-- ════════════════════════════════════════════════════════════════════════════
-- The deterministic parser (`DeterministicParser.parse`)
-- ════════════════════════════════════════════════════════════════════════════

/-- Embedding of `DeterministicParser._clean_lines`: split on newlines,
strip each line, drop empties. -/
def clean_lines (text : List Char) : List (List Char) :=
  ((splitNL text).map pyStrip).filter (fun l => !l.isEmpty)

/-- Python truthiness of an optional amount given in cents. -/
def truthyC : Option ℕ → Bool
  | none => false
  | some n => n ≠ 0

/-- Result of the deterministic parser: one optional value per field,
amounts in exact cents. -/
structure DetResult where
  vendor : Option (List Char)
  date : Option (List Char)
  amounts : AField → Option ℕ

/-- Rational (Python float) view of an amount field of a result. -/
def DetResult.amountQ (r : DetResult) (f : AField) : Option ℚ :=
  (r.amounts f).map centsToQ

/-- Is a field one of the four tax fields (`["gst", "qst", "pst", "hst"]`)? -/
def isTaxField (f : AField) : Bool :=
  f = .gst ∨ f = .qst ∨ f = .pst ∨ f = .hst

/-- Tax-sanity pass of `DeterministicParser.parse`: nulls any truthy tax
value `v` with `v ≥ total` whenever the resolved total is truthy
(comparisons on cents agree with the source's float comparisons, both
values being exact multiples of a cent). -/
def parseAmounts (lines : List (List Char)) (f : AField) : Option ℕ :=
  if isTaxField f ∧ truthyC (extract_amounts lines .total) then
    match extract_amounts lines f with
    | some v =>
      if v ≠ 0 ∧ (extract_amounts lines .total).getD 0 ≤ v then none
      else some v
    | none => none
  else extract_amounts lines f

namespace DeterministicParser

/-- Embedding of `DeterministicParser.parse`: vendor, date and amount
anchors, followed by the tax-sanity pass. -/
def parse (text : List Char) : DetResult :=
  { vendor := extract_vendor (clean_lines text) text
    date := extract_date (clean_lines text)
    amounts := parseAmounts (clean_lines text) }

end DeterministicParser
-- ════════════════════════════════════════════════════════════════════════════
-- Post-processor (`ReceiptPostProcessor`): warnings, `_to_float`,
-- `_validate_math`, `_adjust_confidence`
-- ════════════════════════════════════════════════════════════════════════════

/-- Warning codes emitted by the post-processor, one constructor per
warning-string shape of the source, carrying the interpolated values. -/
inductive Warning where
  | mathAdjustedPretax (old new : ℚ)
  | mathMismatch (pre tax total diff : ℚ)
  | mathInferredPretax (v : ℚ)
  | mathInferredTotal (v : ℚ)
  | mathMissingTotal
  | dateMissing
  | dateParseFailed (raw : List Char)
  | ocrUnparseable (field : List Char)
  | taxSanityZeroed (field : List Char)
  | taxSanityCapped (field : List Char)
deriving DecidableEq

/-- Numeric record handled by the post-processor (`data` dict): a missing
key and an explicit `None` behave identically under `.get`, both are
`none`. -/
structure RData where
  total : Option ℚ
  pre_tax : Option ℚ
  gst : Option ℚ
  pst : Option ℚ
  hst : Option ℚ
  qst : Option ℚ
  confidence : Option ℚ
  vendor : Option (List Char)
  date : Option (List Char)

/-- Embedding of `_to_float`: `max(0.0, float(v or 0))` (non-numeric values,
which yield 0 in the source, are outside this numeric model). -/
def to_float (v : Option ℚ) : ℚ := clamp0 (v.getD 0)

/-- Embedding of `MATH_TOLERANCE = 0.15`. -/
def mathTolerance : ℚ := 15 / 100

/-- Local `tax_sum = round(gst + pst + hst + qst, 2)` of `_validate_math`. -/
def taxSumR (d : RData) : ℚ :=
  round2 (to_float d.gst + to_float d.pst + to_float d.hst + to_float d.qst)

/-- Local `computed = round(pre_tax + tax_sum, 2)` of `_validate_math`. -/
def computedR (d : RData) : ℚ := round2 (to_float d.pre_tax + taxSumR d)

/-- Local `diff = abs(computed - total)` of `_validate_math`. -/
def diffR (d : RData) : ℚ := |computedR d - to_float d.total|

/-- Local `inferred = round(total - tax_sum, 2)` of `_validate_math`. -/
def inferredR (d : RData) : ℚ := round2 (to_float d.total - taxSumR d)

/-- Branch body of `_validate_math` (everything before the final
missing-total check), with the source's local variables written through the
helper definitions above. -/
def validate_math_core (data : RData) (warnings : List Warning) :
    RData × List Warning :=
  if 0 < to_float data.total ∧ 0 < to_float data.pre_tax then
    if diffR data ≤ mathTolerance then (data, warnings)
    else if diffR data ≤ 2 then
      ({ data with pre_tax := some (inferredR data) },
        warnings ++ [.mathAdjustedPretax (to_float data.pre_tax) (inferredR data)])
    else
      (data, warnings ++ [.mathMismatch (to_float data.pre_tax) (taxSumR data)
        (to_float data.total) (diffR data)])
  else if 0 < to_float data.total ∧ to_float data.pre_tax = 0 ∧
      0 < taxSumR data then
    if 0 < inferredR data ∧ inferredR data < to_float data.total then
      ({ data with pre_tax := some (inferredR data) },
        warnings ++ [.mathInferredPretax (inferredR data)])
    else (data, warnings)
  else if 0 < to_float data.pre_tax ∧ to_float data.total = 0 then
    ({ data with total := some (round2 (to_float data.pre_tax + taxSumR data)) },
      warnings ++ [.mathInferredTotal (round2 (to_float data.pre_tax + taxSumR data))])
  else (data, warnings)

/-- Final check of `_validate_math`: a missing-total warning when the
(possibly updated) total is still not positive. -/
def missingTotalCheck (r : RData × List Warning) : RData × List Warning :=
  if to_float r.1.total ≤ 0 then (r.1, r.2 ++ [.mathMissingTotal]) else r

/-- Embedding of `ReceiptPostProcessor._validate_math`. -/
def validate_math (data : RData) (warnings : List Warning) :
    RData × List Warning :=
  missingTotalCheck (validate_math_core data warnings)

/-- Penalty of one warning under the `penalties` prefix table of
`_adjust_confidence` (`DATE_MISSING` 0.15, `DATE_PARSE_FAILED` 0.10,
`MATH_MISMATCH` 0.20, `MATH_MISSING_TOTAL` 0.25, `OCR_UNPARSEABLE` 0.15,
`TAX_SANITY` 0.10): a warning string starts with at most one key — in
particular both `TAX_SANITY_ZEROED:…` and `TAX_SANITY_CAPPED:…` start with
`TAX_SANITY`, while the `MATH_ADJUSTED_PRETAX` and `MATH_INFERRED_…`
strings start with no key — so the inner `break` never skips a second
match, and each warning simply contributes its category's penalty. -/
def penaltyOf : Warning → ℚ
  | .dateMissing => 15 / 100
  | .dateParseFailed _ => 10 / 100
  | .mathMismatch _ _ _ _ => 20 / 100
  | .mathMissingTotal => 25 / 100
  | .ocrUnparseable _ => 15 / 100
  | .taxSanityZeroed _ => 10 / 100
  | .taxSanityCapped _ => 10 / 100
  | _ => 0

/-- Python truthiness of an optional string. -/
def truthyStr : Option (List Char) → Bool
  | none => false
  | some s => !s.isEmpty

/-- Embedding of `ReceiptPostProcessor._adjust_confidence`: base score (key
`confidence`, default 0.5), minus one penalty per warning, plus a 0.05 bonus
for a truthy vendor, a truthy date, a positive total, and a positive gst,
hst or qst (the source checks `["gst", "hst", "qst"]` — pst is not in the
bonus list), clamped to [0, 1] and rounded to 3 decimals. -/
def penalizedBase (data : RData) (warnings : List Warning) : ℚ :=
  warnings.foldl (fun b w => b - penaltyOf w) (data.confidence.getD (1 / 2))

def bonus (c : Prop) [Decidable c] (b : ℚ) : ℚ := if c then b + 5 / 100 else b

def adjust_confidence (data : RData) (warnings : List Warning) : ℚ :=
  round3 (max 0 (min 1
    (bonus (0 < to_float data.gst ∨ 0 < to_float data.hst ∨
        0 < to_float data.qst)
      (bonus (0 < to_float data.total)
        (bonus (truthyStr data.date = true)
          (bonus (truthyStr data.vendor = true)
            (penalizedBase data warnings)))))))

-- ════════════════════════════════════════════════════════════════════════════
-- Merge resolver (`OllamaClient._merge_with_deterministic`)
-- ════════════════════════════════════════════════════════════════════════════

/-- Fields handled by the merge, as an optional-valued record (missing dict
keys and `None` both map to `none`). -/
structure MergeData where
  total : Option ℚ
  pre_tax : Option ℚ
  gst : Option ℚ
  qst : Option ℚ
  pst : Option ℚ
  hst : Option ℚ
  vendor : Option (List Char)
  date : Option (List Char)

/-- Python falsiness of an optional float (`not merged.get(field)`). -/
def falsyQ : Option ℚ → Bool
  | none => true
  | some q => q = 0

/-- Python truthiness of an optional float. -/
def truthyQ (o : Option ℚ) : Bool := !falsyQ o

/-- Python falsiness of an optional string. -/
def falsyS (o : Option (List Char)) : Bool := !truthyStr o

/-- One tax/pre-tax field of `OllamaClient._merge_with_deterministic`: the
deterministic value when it is non-None and the model value is falsy, else
the model value. -/
def mergePickQ (dv mv : Option ℚ) : Option ℚ :=
  if dv ≠ none ∧ falsyQ mv then dv else mv

/-- The total field of the merge (`llm_total = merged.get("total") or 0.0`). -/
def mergeTotal (dt mt : Option ℚ) : Option ℚ :=
  if truthyQ dt ∧ mt.getD 0 ≠ 0 ∧ 1 < |dt.getD 0 - mt.getD 0| then dt
  else if truthyQ dt ∧ mt.getD 0 = 0 then dt
  else mt

/-- A vendor/date field of the merge: the deterministic value fills in only
when the model value is falsy. -/
def mergeStr (dv mv : Option (List Char)) : Option (List Char) :=
  if truthyStr dv ∧ falsyS mv then dv else mv

/-- Embedding of `OllamaClient._merge_with_deterministic`: for each of gst,
qst, pst, hst, pre_tax the deterministic value overrides iff it is non-None
and the model value is falsy; for total the deterministic value wins when
both are truthy and differ by more than 1.00, or when the model total is
falsy and the deterministic one truthy; for vendor and date the
deterministic value fills in only when the model value is falsy. -/
def merge_with_deterministic (llm det : MergeData) : MergeData :=
  { total := mergeTotal det.total llm.total
    pre_tax := mergePickQ det.pre_tax llm.pre_tax
    gst := mergePickQ det.gst llm.gst
    qst := mergePickQ det.qst llm.qst
    pst := mergePickQ det.pst llm.pst
    hst := mergePickQ det.hst llm.hst
    vendor := mergeStr det.vendor llm.vendor
    date := mergeStr det.date llm.date }

-- ════════════════════════════════════════════════════════════════════════════
-- Image pipeline (`ReceiptImagePipeline.process`)
-- ════════════════════════════════════════════════════════════════════════════

/-- External Pillow operations used by `ReceiptImagePipeline`, abstracted
over an arbitrary image type: `_load` catches every exception and returns
`None` on any undecodable input, modelled by an `Option`; the remaining
transforms and the JPEG encoding are total functions of the library. -/
structure ImageOps (Img : Type) where
  load : List ℕ → Option Img
  fixExifRotation : Img → Img
  toRgb : Img → Img
  upscaleIfNeeded : Img → Img
  downscaleIfNeeded : Img → Img
  convertGreyscale : Img → Img
  localContrast : Img → Img
  sharpen : Img → Img
  denoise : Img → Img
  adaptiveThreshold : Img → Img
  addPadding : Img → Img
  backToRgb : Img → Img
  saveJpeg : Img → List ℕ

/-- Embedding of `ReceiptImagePipeline.process`: decode failure returns the
original bytes; otherwise the transform chain is applied and the result
re-encoded.  The function is total, mirroring the absence of any uncaught
exception path in the source. -/
def imageProcess {Img : Type} (M : ImageOps Img) (raw : List ℕ) : List ℕ :=
  match M.load raw with
  | none => raw
  | some img =>
    M.saveJpeg (M.backToRgb (M.addPadding (M.adaptiveThreshold (M.denoise
      (M.sharpen (M.localContrast (M.convertGreyscale (M.downscaleIfNeeded
        (M.upscaleIfNeeded (M.toRgb (M.fixExifRotation img)))))))))))

/-- Degenerate instantiation whose decoder rejects every input. -/
def rejectAllOps : ImageOps Unit :=
  { load := fun _ => none
    fixExifRotation := id, toRgb := id, upscaleIfNeeded := id
    downscaleIfNeeded := id, convertGreyscale := id, localContrast := id
    sharpen := id, denoise := id, adaptiveThreshold := id, addPadding := id
    backToRgb := id, saveJpeg := fun _ => [] }

-- ════════════════════════════════════════════════════════════════════════════
-- Selection lemmas for the argmax folds
-- ════════════════════════════════════════════════════════════════════════════

/-- Key order of the `(priority, -idx)` / `(score, -idx)` selections. -/
def KeyLE {α : Type} (a b : α × ℕ × ℕ) : Prop :=
  a.2.1 < b.2.1 ∨ (a.2.1 = b.2.1 ∧ b.2.2 ≤ a.2.2)

/-- One fold step of `argBest`. -/
def bestStep {α : Type} (b e : α × ℕ × ℕ) : α × ℕ × ℕ :=
  if b.2.1 < e.2.1 ∨ (b.2.1 = e.2.1 ∧ e.2.2 < b.2.2) then e else b

/-- One fold step of `argLast`. -/
def lastStep {α : Type} (b e : α × ℕ × ℕ) : α × ℕ × ℕ :=
  if b.2.2 < e.2.2 then e else b

/-- Input of the C4 witness: two equal-highest-priority TOTAL lines at
cleaned-line indices 5 and 40. -/
def c4lines : List (List Char) :=
  List.replicate 5 ("q".data) ++ ["TOTAL 5.00".data] ++
    List.replicate 34 ("q".data) ++ ["TOTAL 40.00".data]

def c5text : List Char := "TOTAL 20.00\nGST 25.00".data

def c7lines : List (List Char) :=
  ["Next Bill Date: 2025-03-01".data, "Bill Date: 2025-02-01".data]

/-- Plain (unrounded) tax sum `gst + pst + hst + qst` of a record, the
quantity the specification calls `tax_sum`. -/
def taxSumOf (d : RData) : ℚ :=
  to_float d.gst + to_float d.pst + to_float d.hst + to_float d.qst

/-- Record of the specification's math-adjustment example:
`pre_tax = 15.00`, `gst = 2.00`, `total = 18.50`. -/
def c1data : RData :=
  { total := some (37 / 2), pre_tax := some 15, gst := some 2, pst := none
    hst := none, qst := none, confidence := none, vendor := none
    date := none }

def c2data1 : RData :=
  { total := none, pre_tax := none, gst := none, pst := none, hst := none
    qst := none, confidence := none, vendor := none, date := none }

def c2data2 : RData := { c2data1 with pst := some 1 }

def c3wllm : MergeData :=
  { total := some 5, pre_tax := none, gst := none, qst := none, pst := none
    hst := none, vendor := some ['A'], date := none }

def c3wdet : MergeData :=
  { total := some 10, pre_tax := none, gst := some 1, qst := none
    pst := none, hst := none, vendor := some ['B'], date := none }

def c3cllm : MergeData :=
  { total := none, pre_tax := none, gst := none, qst := none, pst := none
    hst := none, vendor := some ['A'], date := none }

def c3cdet : MergeData :=
  { total := none, pre_tax := none, gst := none, qst := none, pst := none
    hst := none, vendor := some ['B'], date := none }

-- ════════════════════════════════════════════════════════════════════════════
-- Theorems
-- ════════════════════════════════════════════════════════════════════════════
theorem isCents_add {a b : ℚ} (ha : IsCents a) (hb : IsCents b) :
    IsCents (a + b) := by
  obtain ⟨m, rfl⟩ := ha; obtain ⟨n, rfl⟩ := hb
  exact ⟨m + n, by push_cast; ring⟩

theorem isCents_sub {a b : ℚ} (ha : IsCents a) (hb : IsCents b) :
    IsCents (a - b) := by
  obtain ⟨m, rfl⟩ := ha; obtain ⟨n, rfl⟩ := hb
  exact ⟨m - n, by push_cast; ring⟩

theorem rndHalfEven_intCast (n : ℤ) : rndHalfEven (n : ℚ) = n := by
  unfold rndHalfEven
  have h1 : ⌊(n : ℚ)⌋ = n := Int.floor_intCast n
  simp [h1]

theorem round2_cents {q : ℚ} (h : IsCents q) : round2 q = q := by
  obtain ⟨n, rfl⟩ := h
  unfold round2
  have : (n : ℚ) / 100 * 100 = (n : ℚ) := by ring
  rw [this, rndHalfEven_intCast]

theorem isCents_clamp0 {q : ℚ} (h : IsCents q) : IsCents (clamp0 q) := by
  unfold clamp0
  rcases le_or_lt q 0 with h0 | h0
  · rw [max_eq_left h0]; exact ⟨0, by norm_num⟩
  · rw [max_eq_right h0.le]; exact h

theorem keyLE_refl {α : Type} (a : α × ℕ × ℕ) : KeyLE a a :=
  Or.inr ⟨rfl, le_refl _⟩

theorem keyLE_trans {α : Type} {a b c : α × ℕ × ℕ}
    (h1 : KeyLE a b) (h2 : KeyLE b c) : KeyLE a c := by
  unfold KeyLE at *
  omega

theorem bestStep_cases {α : Type} (b e : α × ℕ × ℕ) :
    (bestStep b e = b ∨ bestStep b e = e) ∧
      KeyLE b (bestStep b e) ∧ KeyLE e (bestStep b e) := by
  unfold bestStep
  split
  · exact ⟨Or.inr rfl, by unfold KeyLE at *; omega, keyLE_refl e⟩
  · exact ⟨Or.inl rfl, keyLE_refl b, by unfold KeyLE at *; omega⟩

theorem argBest_eq_foldl_bestStep {α : Type} (h : α × ℕ × ℕ)
    (t : List (α × ℕ × ℕ)) : argBest h t = t.foldl bestStep h := rfl

theorem argBest_mem {α : Type} (h : α × ℕ × ℕ) (t : List (α × ℕ × ℕ)) :
    argBest h t ∈ h :: t := by
  induction t generalizing h with
  | nil => simp [argBest]
  | cons e t ih =>
    rw [argBest_eq_foldl_bestStep, List.foldl_cons, ← argBest_eq_foldl_bestStep]
    have hmem := ih (bestStep h e)
    rcases List.mem_cons.1 hmem with hm | hm
    · rcases (bestStep_cases h e).1 with hc | hc
      · rw [hm, hc]; exact List.mem_cons_self _ _
      · rw [hm, hc]; exact List.mem_cons_of_mem _ (List.mem_cons_self _ _)
    · exact List.mem_cons_of_mem _ (List.mem_cons_of_mem _ hm)

theorem argBest_le {α : Type} (h : α × ℕ × ℕ) (t : List (α × ℕ × ℕ)) :
    ∀ e ∈ h :: t, KeyLE e (argBest h t) := by
  induction t generalizing h with
  | nil => intro e he; simp at he; subst he; exact keyLE_refl _
  | cons e t ih =>
    intro x hx
    rw [argBest_eq_foldl_bestStep, List.foldl_cons, ← argBest_eq_foldl_bestStep]
    have hstep := bestStep_cases h e
    have hbest : KeyLE (bestStep h e) (argBest (bestStep h e) t) :=
      ih (bestStep h e) _ (List.mem_cons_self _ _)
    simp only [List.mem_cons] at hx
    rcases hx with rfl | rfl | hx
    · exact keyLE_trans hstep.2.1 hbest
    · exact keyLE_trans hstep.2.2 hbest
    · exact ih (bestStep h e) x (List.mem_cons_of_mem _ hx)

theorem argLast_eq_foldl_lastStep {α : Type} (p : α × ℕ × ℕ)
    (ps : List (α × ℕ × ℕ)) : argLast p ps = ps.foldl lastStep p := rfl

theorem argLast_mem {α : Type} (p : α × ℕ × ℕ) (ps : List (α × ℕ × ℕ)) :
    argLast p ps ∈ p :: ps := by
  induction ps generalizing p with
  | nil => simp [argLast]
  | cons e t ih =>
    rw [argLast_eq_foldl_lastStep, List.foldl_cons, ← argLast_eq_foldl_lastStep]
    have hmem := ih (lastStep p e)
    have hc : lastStep p e = p ∨ lastStep p e = e := by
      unfold lastStep; split
      · exact Or.inr rfl
      · exact Or.inl rfl
    rcases List.mem_cons.1 hmem with hm | hm
    · rcases hc with hc | hc
      · rw [hm, hc]; exact List.mem_cons_self _ _
      · rw [hm, hc]; exact List.mem_cons_of_mem _ (List.mem_cons_self _ _)
    · exact List.mem_cons_of_mem _ (List.mem_cons_of_mem _ hm)

theorem argLast_ge {α : Type} (p : α × ℕ × ℕ) (ps : List (α × ℕ × ℕ)) :
    ∀ e ∈ p :: ps, e.2.2 ≤ (argLast p ps).2.2 := by
  induction ps generalizing p with
  | nil => intro e he; simp at he; subst he; exact le_refl _
  | cons e t ih =>
    intro x hx
    rw [argLast_eq_foldl_lastStep, List.foldl_cons, ← argLast_eq_foldl_lastStep]
    have hbest : (lastStep p e).2.2 ≤ (argLast (lastStep p e) t).2.2 :=
      ih (lastStep p e) _ (List.mem_cons_self _ _)
    have hp : p.2.2 ≤ (lastStep p e).2.2 := by unfold lastStep; split <;> omega
    have he2 : e.2.2 ≤ (lastStep p e).2.2 := by unfold lastStep; split <;> omega
    simp only [List.mem_cons] at hx
    rcases hx with rfl | rfl | hx
    · exact le_trans hp hbest
    · exact le_trans he2 hbest
    · exact ih (lastStep p e) x (List.mem_cons_of_mem _ hx)

theorem foldl_max_init_le {α : Type} (l : List (α × ℕ × ℕ)) (init : ℕ) :
    init ≤ l.foldl (fun m e => max m e.2.1) init := by
  induction l generalizing init with
  | nil => exact le_refl _
  | cons e t ih => exact le_trans (le_max_left _ _) (ih (max init e.2.1))

theorem foldl_max_mem_le {α : Type} (l : List (α × ℕ × ℕ)) (init : ℕ) :
    ∀ e ∈ l, e.2.1 ≤ l.foldl (fun m e => max m e.2.1) init := by
  induction l generalizing init with
  | nil => intro e he; simp at he
  | cons e t ih =>
    intro x hx
    simp only [List.mem_cons] at hx
    rcases hx with rfl | hx
    · exact le_trans (le_max_right _ _) (foldl_max_init_le t _)
    · exact ih (max init e.2.1) x hx

theorem foldl_max_attained {α : Type} (l : List (α × ℕ × ℕ)) (init : ℕ) :
    l.foldl (fun m e => max m e.2.1) init = init ∨
      ∃ e ∈ l, l.foldl (fun m e => max m e.2.1) init = e.2.1 := by
  induction l generalizing init with
  | nil => exact Or.inl rfl
  | cons e t ih =>
    rcases ih (max init e.2.1) with h | ⟨x, hx, hv⟩
    · rw [List.foldl_cons, h]
      rcases max_choice init e.2.1 with hm | hm
      · exact Or.inl hm
      · exact Or.inr ⟨e, List.mem_cons_self _ _, hm⟩
    · exact Or.inr ⟨x, List.mem_cons_of_mem _ hx, by rw [List.foldl_cons]; exact hv⟩

-- ════════════════════════════════════════════════════════════════════════════
-- Structural lemmas on the amount anchors
-- ════════════════════════════════════════════════════════════════════════════

theorem foundEntries_pos {lines : List (List Char)} {x : AField × AnchorEntry}
    (hx : x ∈ foundEntries lines) : 0 < x.2.1 := by
  unfold foundEntries at hx
  simp only [List.mem_flatMap, List.mem_filterMap] at hx
  obtain ⟨li, _, rule, _, hr⟩ := hx
  by_cases hs : searchRE rule.2.1 (cleanLabel li.2) = true
  · simp only [hs, if_true] at hr
    cases hpa : parse_amount_cents li.2 with
    | none => rw [hpa] at hr; simp at hr
    | some a =>
      rw [hpa] at hr
      by_cases ha : 0 < a
      · simp only [ha, if_true] at hr
        cases hr
        simpa using ha
      · simp [ha] at hr
  · simp [hs] at hr

theorem foundFor_mem_entries {lines : List (List Char)} {f : AField}
    {e : AnchorEntry} (he : e ∈ foundFor lines f) :
    (f, e) ∈ foundEntries lines := by
  unfold foundFor at he
  simp only [List.mem_filterMap] at he
  obtain ⟨x, hx, hxe⟩ := he
  by_cases h1 : x.1 = f
  · simp only [h1, if_true] at hxe
    cases hxe
    rw [← h1]
    exact hx
  · simp [h1] at hxe

theorem foundFor_pos {lines : List (List Char)} {f : AField} {e : AnchorEntry}
    (he : e ∈ foundFor lines f) : 0 < e.1 :=
  foundEntries_pos (foundFor_mem_entries he)

theorem totalBest_ge (h : AnchorEntry) (t : List AnchorEntry) :
    ∀ e ∈ h :: t, e.2.1 ≤ totalBest h t :=
  fun e he => foldl_max_mem_le (h :: t) 0 e he

theorem totalPool_ne_nil (h : AnchorEntry) (t : List AnchorEntry) :
    (h :: t).filter (fun e => e.2.1 = totalBest h t) ≠ [] := by
  intro hnil
  have hmem : ∀ e ∈ h :: t, e.2.1 = totalBest h t → False := by
    intro e he hv
    have : e ∈ (h :: t).filter (fun e => e.2.1 = totalBest h t) :=
      List.mem_filter.2 ⟨he, by simp [hv]⟩
    rw [hnil] at this
    simp at this
  rcases foldl_max_attained (h :: t) 0 with h0 | ⟨e, he, hv⟩
  · have hle : h.2.1 ≤ totalBest h t := totalBest_ge h t h (List.mem_cons_self _ _)
    have : totalBest h t = 0 := h0
    exact hmem h (List.mem_cons_self _ _) (by omega)
  · exact hmem e he hv.symm

theorem pickTotal_mem (h : AnchorEntry) (t : List AnchorEntry) :
    pickTotal h t ∈ h :: t := by
  unfold pickTotal
  cases hp : (h :: t).filter (fun e => e.2.1 = totalBest h t) with
  | nil => exact List.mem_cons_self _ _
  | cons p ps =>
    have hm := argLast_mem p ps
    rw [← hp] at hm
    exact List.mem_of_mem_filter hm

theorem pickTotal_priority (h : AnchorEntry) (t : List AnchorEntry) :
    (pickTotal h t).2.1 = totalBest h t := by
  unfold pickTotal
  cases hp : (h :: t).filter (fun e => e.2.1 = totalBest h t) with
  | nil => exact absurd hp (totalPool_ne_nil h t)
  | cons p ps =>
    have hm := argLast_mem p ps
    rw [← hp] at hm
    have := (List.mem_filter.1 hm).2
    simpa using this

theorem pickTotal_idx (h : AnchorEntry) (t : List AnchorEntry) :
    ∀ e ∈ h :: t, e.2.1 = (pickTotal h t).2.1 → e.2.2 ≤ (pickTotal h t).2.2 := by
  intro e he hv
  rw [pickTotal_priority] at hv
  unfold pickTotal
  cases hp : (h :: t).filter (fun e => e.2.1 = totalBest h t) with
  | nil => exact absurd hp (totalPool_ne_nil h t)
  | cons p ps =>
    have hmem : e ∈ p :: ps := by
      rw [← hp]
      exact List.mem_filter.2 ⟨he, by simp [hv]⟩
    exact argLast_ge p ps e hmem

theorem extract_amounts_pos {lines : List (List Char)} {f : AField} {a : ℕ}
    (h : extract_amounts lines f = some a) : 0 < a := by
  unfold extract_amounts at h
  cases hf : foundFor lines f with
  | nil => rw [hf] at h; simp at h
  | cons hd tl =>
    rw [hf] at h
    simp only [Option.some.injEq] at h
    by_cases hft : f = .total
    · rw [if_pos hft] at h
      have hm := pickTotal_mem hd tl
      rw [← hf] at hm
      have := foundFor_pos hm
      omega
    · rw [if_neg hft] at h
      have hm : pickOther hd tl ∈ hd :: tl := argBest_mem hd tl
      rw [← hf] at hm
      have := foundFor_pos hm
      omega

theorem parseAmounts_pos {lines : List (List Char)} {f : AField} {v : ℕ}
    (h : parseAmounts lines f = some v) : 0 < v := by
  unfold parseAmounts at h
  by_cases hc : (isTaxField f = true ∧
      truthyC (extract_amounts lines .total) = true)
  · rw [if_pos hc] at h
    cases hx : extract_amounts lines f with
    | none => rw [hx] at h; simp at h
    | some v0 =>
      rw [hx] at h
      have h' : (if v0 ≠ 0 ∧ (extract_amounts lines .total).getD 0 ≤ v0 then
          (none : Option ℕ) else some v0) = some v := h
      by_cases h2 : (v0 ≠ 0 ∧ (extract_amounts lines .total).getD 0 ≤ v0)
      · rw [if_pos h2] at h'; simp at h'
      · rw [if_neg h2] at h'
        simp only [Option.some.injEq] at h'
        subst h'
        exact extract_amounts_pos hx
  · rw [if_neg hc] at h
    exact extract_amounts_pos h

/-- C4: for every input text, when the deterministic parser resolves amount
anchors, the `total` field resolves to an anchor of globally highest
priority whose line index is largest among the highest-priority anchors,
and every other amount field resolves to a highest-priority anchor whose
line index is smallest among the highest-priority anchors. -/
theorem c4_amount_resolution (lines : List (List Char)) (f : AField) (a : ℕ)
    (h : extract_amounts lines f = some a) :
    ∃ p i, (a, p, i) ∈ foundFor lines f ∧
      (∀ e ∈ foundFor lines f, e.2.1 ≤ p) ∧
      (f = .total → ∀ e ∈ foundFor lines f, e.2.1 = p → e.2.2 ≤ i) ∧
      (f ≠ .total → ∀ e ∈ foundFor lines f, e.2.1 = p → i ≤ e.2.2) := by
  unfold extract_amounts at h
  cases hf : foundFor lines f with
  | nil => rw [hf] at h; simp at h
  | cons hd tl =>
    rw [hf] at h
    simp only [Option.some.injEq] at h
    by_cases hft : f = .total
    · rw [if_pos hft] at h
      refine ⟨(pickTotal hd tl).2.1, (pickTotal hd tl).2.2, ?_, ?_, ?_, ?_⟩
      · rw [← h]
        exact pickTotal_mem hd tl
      · intro e he
        rw [pickTotal_priority]
        exact totalBest_ge hd tl e he
      · intro _ e he hv
        exact pickTotal_idx hd tl e he hv
      · intro hne
        exact absurd hft hne
    · rw [if_neg hft] at h
      refine ⟨(pickOther hd tl).2.1, (pickOther hd tl).2.2, ?_, ?_, ?_, ?_⟩
      · rw [← h]
        exact (argBest_mem hd tl : pickOther hd tl ∈ hd :: tl)
      · intro e he
        have hk : KeyLE e (pickOther hd tl) := argBest_le hd tl e he
        unfold KeyLE at hk
        omega
      · intro hft2
        exact absurd hft2 hft
      · intro _ e he hv
        have hk : KeyLE e (pickOther hd tl) := argBest_le hd tl e he
        unfold KeyLE at hk
        omega

theorem c4_amount_resolution_witness :
    extract_amounts c4lines .total = some 4000 ∧
      (∃ p i, (4000, p, i) ∈ foundFor c4lines .total ∧
        (∀ e ∈ foundFor c4lines .total, e.2.1 ≤ p) ∧
        (AField.total = AField.total →
          ∀ e ∈ foundFor c4lines .total, e.2.1 = p → e.2.2 ≤ i) ∧
        (AField.total ≠ AField.total →
          ∀ e ∈ foundFor c4lines .total, e.2.1 = p → i ≤ e.2.2)) :=
  ⟨by decide, c4_amount_resolution c4lines .total 4000 (by decide)⟩

/-- C5: for every input text, once the parser has resolved a total, any
resolved tax anchor whose value is at least the resolved total resolves to
`none` in the returned result. -/
theorem c5_tax_sanity (text : List Char) (f : AField) (t v : ℕ)
    (hf : isTaxField f = true)
    (htot : (DeterministicParser.parse text).amounts .total = some t)
    (hanch : extract_amounts (clean_lines text) f = some v)
    (hge : t ≤ v) :
    (DeterministicParser.parse text).amounts f = none := by
  have hv : 0 < v := extract_amounts_pos hanch
  have htot' : extract_amounts (clean_lines text) .total = some t := by
    have heq : (DeterministicParser.parse text).amounts .total
        = parseAmounts (clean_lines text) .total := rfl
    rw [heq] at htot
    unfold parseAmounts at htot
    rw [if_neg] at htot
    · exact htot
    · intro hcon
      exact absurd hcon.1 (by decide)
  have ht : 0 < t := extract_amounts_pos htot'
  have heq : (DeterministicParser.parse text).amounts f
      = parseAmounts (clean_lines text) f := rfl
  rw [heq]
  unfold parseAmounts
  rw [if_pos ⟨hf, by rw [htot']; simp [truthyC]; omega⟩, hanch, htot']
  simp only [Option.getD_some]
  rw [if_pos ⟨by omega, hge⟩]

theorem c5_tax_sanity_witness :
    isTaxField .gst = true ∧
      (DeterministicParser.parse c5text).amounts .total = some 2000 ∧
      extract_amounts (clean_lines c5text) .gst = some 2500 ∧
      2000 ≤ 2500 ∧
      (DeterministicParser.parse c5text).amounts .gst = none :=
  ⟨by decide, by decide, by decide, by decide,
    c5_tax_sanity c5text .gst 2000 2500 (by decide) (by decide) (by decide)
      (by decide)⟩

/-- C6: the amount grammar reads a comma or a period as the decimal
separator: the lines `Total: 41,53` and `Total: $41.53` both resolve
`total = 41.53`. -/
theorem c6_amount_grammar :
    (DeterministicParser.parse ("Total: 41,53".data)).amountQ .total =
        some ((4153 : ℚ) / 100) ∧
      (DeterministicParser.parse ("Total: $41.53".data)).amountQ .total =
        some ((4153 : ℚ) / 100) := by
  have h1 : (DeterministicParser.parse ("Total: 41,53".data)).amounts .total
      = some 4153 := by decide
  have h2 : (DeterministicParser.parse ("Total: $41.53".data)).amounts .total
      = some 4153 := by decide
  constructor
  · rw [DetResult.amountQ, h1]
    simp [centsToQ]
  · rw [DetResult.amountQ, h2]
    simp [centsToQ]

/-- C9: the deterministic parser is a pure function of the text — two
invocations on the identical text return identical anchors, identical date
candidates and identical resolved fields (the embedding is model-free,
involving no stateful or external call). -/
theorem c9_determinism (text : List Char) :
    DeterministicParser.parse text = DeterministicParser.parse text ∧
      foundEntries (clean_lines text) = foundEntries (clean_lines text) ∧
      dateCandidates (clean_lines text) = dateCandidates (clean_lines text) :=
  ⟨rfl, rfl, rfl⟩

/-- C10: every amount field the deterministic parser resolves to a non-null
value is strictly positive and an exact multiple of a cent (two decimals). -/
theorem c10_amount_invariant (text : List Char) (f : AField) (q : ℚ)
    (h : (DeterministicParser.parse text).amountQ f = some q) :
    0 < q ∧ ∃ n : ℕ, q = (n : ℚ) / 100 := by
  unfold DetResult.amountQ at h
  cases hx : (DeterministicParser.parse text).amounts f with
  | none => rw [hx] at h; simp at h
  | some v =>
    rw [hx] at h
    simp only [Option.map_some', Option.some.injEq] at h
    subst h
    have hv : 0 < v := parseAmounts_pos hx
    constructor
    · unfold centsToQ
      have hq : (0 : ℚ) < (v : ℚ) := by exact_mod_cast hv
      exact div_pos hq (by norm_num)
    · exact ⟨v, rfl⟩

theorem c10_amount_invariant_witness :
    (DeterministicParser.parse ("Total: 41,53".data)).amountQ .total =
        some ((4153 : ℚ) / 100) ∧
      (0 < ((4153 : ℚ) / 100) ∧
        ∃ n : ℕ, ((4153 : ℚ) / 100) = (n : ℚ) / 100) := by
  have h1 : (DeterministicParser.parse ("Total: 41,53".data)).amounts .total
      = some 4153 := by decide
  have h : (DeterministicParser.parse ("Total: 41,53".data)).amountQ .total
      = some ((4153 : ℚ) / 100) := by
    rw [DetResult.amountQ, h1]
    simp [centsToQ]
  exact ⟨h, c10_amount_invariant ("Total: 41,53".data) .total _ h⟩

theorem dateCandLine_spec {total idx : ℕ} {line : List Char} {c : DateCand}
    (hc : c ∈ dateCandLine total idx line) :
    c.2.2 = idx ∧ searchRE dateReject (strip_accents (pyLower line)) = false ∧
      c.2.1 = dateScore total idx line ∧ valid_iso c.1 = true := by
  unfold dateCandLine at hc
  by_cases hrej : searchRE dateReject (strip_accents (pyLower line)) = true
  · rw [if_pos hrej] at hc
    simp at hc
  · rw [if_neg hrej] at hc
    simp only [List.mem_filterMap] at hc
    obtain ⟨g, _, hm⟩ := hc
    cases hp : parse_iso_date g with
    | none => rw [hp] at hm; simp at hm
    | some iso =>
      rw [hp] at hm
      have hm' : (if valid_iso iso = true then
          some (iso, dateScore total idx line, idx) else none) = some c := hm
      by_cases hvi : valid_iso iso = true
      · rw [if_pos hvi] at hm'
        simp only [Option.some.injEq] at hm'
        subst hm'
        exact ⟨rfl, by simpa using hrej, rfl, hvi⟩
      · rw [if_neg hvi] at hm'
        simp at hm'

/-- C7: the date extractor takes no candidate from a line matching the
not-a-transaction-date vocabulary; every candidate is scored +10 for a
confirmed label, +5 for an adjacent clock time and +2 when in the first 40%
of lines, and the resolved date is a candidate of maximal score with, among
those, the smallest line index. -/
theorem c7_date_resolution (lines : List (List Char)) (d : List Char)
    (h : extract_date lines = some d) :
    (∃ s i, (d, s, i) ∈ dateCandidates lines ∧
      (∀ c ∈ dateCandidates lines, c.2.1 ≤ s) ∧
      (∀ c ∈ dateCandidates lines, c.2.1 = s → i ≤ c.2.2)) ∧
    (∀ c ∈ dateCandidates lines, ∃ line, lines[c.2.2]? = some line ∧
      searchRE dateReject (strip_accents (pyLower line)) = false ∧
      c.2.1 = dateScore (max lines.length 1) c.2.2 line) := by
  constructor
  · unfold extract_date at h
    cases hcand : dateCandidates lines with
    | nil => rw [hcand] at h; simp at h
    | cons hd tl =>
      rw [hcand] at h
      simp only [Option.some.injEq] at h
      refine ⟨(pickDate hd tl).2.1, (pickDate hd tl).2.2, ?_, ?_, ?_⟩
      · rw [← h]
        exact (argBest_mem hd tl : pickDate hd tl ∈ hd :: tl)
      · intro c hcm
        have hk : KeyLE c (pickDate hd tl) := argBest_le hd tl c hcm
        unfold KeyLE at hk
        omega
      · intro c hcm hs
        have hk : KeyLE c (pickDate hd tl) := argBest_le hd tl c hcm
        unfold KeyLE at hk
        omega
  · intro c hcm
    unfold dateCandidates at hcm
    simp only [List.mem_flatMap] at hcm
    obtain ⟨li, hli, hcl⟩ := hcm
    have hspec := dateCandLine_spec hcl
    have hget : lines[li.1]? = some li.2 := List.mem_enum_iff_getElem?.1 hli
    refine ⟨li.2, ?_, hspec.2.1, ?_⟩
    · rw [hspec.1]
      exact hget
    · rw [hspec.1]
      exact hspec.2.2.1

theorem c7_date_resolution_witness :
    extract_date c7lines = some ("2025-02-01".data) ∧
      ((∃ s i, ("2025-02-01".data, s, i) ∈ dateCandidates c7lines ∧
        (∀ c ∈ dateCandidates c7lines, c.2.1 ≤ s) ∧
        (∀ c ∈ dateCandidates c7lines, c.2.1 = s → i ≤ c.2.2)) ∧
      (∀ c ∈ dateCandidates c7lines, ∃ line, c7lines[c.2.2]? = some line ∧
        searchRE dateReject (strip_accents (pyLower line)) = false ∧
        c.2.1 = dateScore (max c7lines.length 1) c.2.2 line)) :=
  ⟨by decide, c7_date_resolution c7lines ("2025-02-01".data) (by decide)⟩

-- ════════════════════════════════════════════════════════════════════════════
-- Arithmetic validation (claim C1)
-- ════════════════════════════════════════════════════════════════════════════

theorem to_float_nonneg (v : Option ℚ) : 0 ≤ to_float v := le_max_left 0 _

theorem taxSumOf_nonneg (d : RData) : 0 ≤ taxSumOf d := by
  unfold taxSumOf
  have h1 := to_float_nonneg d.gst
  have h2 := to_float_nonneg d.pst
  have h3 := to_float_nonneg d.hst
  have h4 := to_float_nonneg d.qst
  linarith

theorem isCents_taxSumOf {d : RData} (hg : IsCents (to_float d.gst))
    (hps : IsCents (to_float d.pst)) (hh : IsCents (to_float d.hst))
    (hq : IsCents (to_float d.qst)) : IsCents (taxSumOf d) := by
  unfold taxSumOf
  exact isCents_add (isCents_add (isCents_add hg hps) hh) hq

theorem taxSumR_eq {d : RData} (hg : IsCents (to_float d.gst))
    (hps : IsCents (to_float d.pst)) (hh : IsCents (to_float d.hst))
    (hq : IsCents (to_float d.qst)) : taxSumR d = taxSumOf d :=
  round2_cents (isCents_taxSumOf hg hps hh hq)

theorem diffR_eq {d : RData} (hp : IsCents (to_float d.pre_tax))
    (hg : IsCents (to_float d.gst)) (hps : IsCents (to_float d.pst))
    (hh : IsCents (to_float d.hst)) (hq : IsCents (to_float d.qst)) :
    diffR d = |to_float d.pre_tax + taxSumOf d - to_float d.total| := by
  unfold diffR computedR
  rw [taxSumR_eq hg hps hh hq,
    round2_cents (isCents_add hp (isCents_taxSumOf hg hps hh hq))]

theorem inferredR_eq {d : RData} (ht : IsCents (to_float d.total))
    (hg : IsCents (to_float d.gst)) (hps : IsCents (to_float d.pst))
    (hh : IsCents (to_float d.hst)) (hq : IsCents (to_float d.qst)) :
    inferredR d = to_float d.total - taxSumOf d := by
  unfold inferredR
  rw [taxSumR_eq hg hps hh hq,
    round2_cents (isCents_sub ht (isCents_taxSumOf hg hps hh hq))]

theorem missingTotalCheck_fst (r : RData × List Warning) :
    (missingTotalCheck r).1 = r.1 := by
  unfold missingTotalCheck
  split <;> rfl

/-- C1: on cent-valued records, `_validate_math` accepts unchanged (no
warning) when `|pre_tax + tax_sum - total| ≤ 0.15`, silently corrects
`pre_tax` to `total - tax_sum` with an adjusted warning when the difference
is at most 2.00, and otherwise only warns of a mismatch; a missing (zero)
`pre_tax` is inferred as `total - tax_sum` exactly when that value lies
strictly between 0 and the total, and a missing total is inferred as
`pre_tax + tax_sum`. -/
theorem c1_validate_math (d : RData) (ws : List Warning)
    (ht : IsCents (to_float d.total)) (hp : IsCents (to_float d.pre_tax))
    (hg : IsCents (to_float d.gst)) (hps : IsCents (to_float d.pst))
    (hh : IsCents (to_float d.hst)) (hq : IsCents (to_float d.qst)) :
    (0 < to_float d.total → 0 < to_float d.pre_tax →
      ((|to_float d.pre_tax + taxSumOf d - to_float d.total| ≤ 15 / 100 →
          validate_math d ws = (d, ws)) ∧
        (15 / 100 < |to_float d.pre_tax + taxSumOf d - to_float d.total| →
          |to_float d.pre_tax + taxSumOf d - to_float d.total| ≤ 2 →
          validate_math d ws =
            ({ d with pre_tax := some (to_float d.total - taxSumOf d) },
              ws ++ [.mathAdjustedPretax (to_float d.pre_tax)
                (to_float d.total - taxSumOf d)])) ∧
        (2 < |to_float d.pre_tax + taxSumOf d - to_float d.total| →
          validate_math d ws =
            (d, ws ++ [.mathMismatch (to_float d.pre_tax) (taxSumOf d)
              (to_float d.total)
              |to_float d.pre_tax + taxSumOf d - to_float d.total|])))) ∧
    (0 < to_float d.total → to_float d.pre_tax = 0 →
      ((0 < to_float d.total - taxSumOf d ∧
          to_float d.total - taxSumOf d < to_float d.total →
        (validate_math d ws).1.pre_tax =
          some (to_float d.total - taxSumOf d)) ∧
       (¬(0 < to_float d.total - taxSumOf d ∧
          to_float d.total - taxSumOf d < to_float d.total) →
        (validate_math d ws).1.pre_tax = d.pre_tax))) ∧
    (to_float d.total = 0 → 0 < to_float d.pre_tax →
      (validate_math d ws).1.total =
        some (to_float d.pre_tax + taxSumOf d)) := by
  have hts : taxSumR d = taxSumOf d := taxSumR_eq hg hps hh hq
  have hdf := diffR_eq hp hg hps hh hq
  have hin := inferredR_eq ht hg hps hh hq
  refine ⟨?_, ?_, ?_⟩
  · intro h1 h2
    refine ⟨?_, ?_, ?_⟩
    · intro hle
      unfold validate_math validate_math_core
      rw [if_pos ⟨h1, h2⟩, if_pos (show diffR d ≤ mathTolerance by
        rw [hdf]; exact hle)]
      unfold missingTotalCheck
      rw [if_neg (not_le.2 h1)]
    · intro hgt hle
      unfold validate_math validate_math_core
      rw [if_pos ⟨h1, h2⟩,
        if_neg (show ¬diffR d ≤ mathTolerance by
          rw [hdf]; unfold mathTolerance; exact not_le.2 hgt),
        if_pos (show diffR d ≤ 2 by rw [hdf]; exact hle), hin]
      unfold missingTotalCheck
      rw [if_neg (not_le.2 h1)]
    · intro hgt
      unfold validate_math validate_math_core
      rw [if_pos ⟨h1, h2⟩,
        if_neg (show ¬diffR d ≤ mathTolerance by
          rw [hdf]; unfold mathTolerance
          exact not_le.2 (by linarith)),
        if_neg (show ¬diffR d ≤ 2 by rw [hdf]; exact not_le.2 hgt),
        hdf, hts]
      unfold missingTotalCheck
      rw [if_neg (not_le.2 h1)]
  · intro h1 h2
    constructor
    · intro hc
      have hts0 : 0 < taxSumOf d := by
        rcases hc with ⟨_, hlt⟩
        linarith
      unfold validate_math validate_math_core
      rw [if_neg (show ¬(0 < to_float d.total ∧ 0 < to_float d.pre_tax) by
          rintro ⟨_, hpre⟩; rw [h2] at hpre; exact lt_irrefl 0 hpre),
        if_pos ⟨h1, h2, by rw [hts]; exact hts0⟩,
        if_pos (show 0 < inferredR d ∧ inferredR d < to_float d.total by
          rw [hin]; exact hc), missingTotalCheck_fst]
      simp [hin]
    · intro hc
      rcases lt_or_eq_of_le (taxSumOf_nonneg d) with hts0 | hts0
      · unfold validate_math validate_math_core
        rw [if_neg (show ¬(0 < to_float d.total ∧ 0 < to_float d.pre_tax) by
            rintro ⟨_, hpre⟩; rw [h2] at hpre; exact lt_irrefl 0 hpre),
          if_pos ⟨h1, h2, by rw [hts]; exact hts0⟩,
          if_neg (show ¬(0 < inferredR d ∧ inferredR d < to_float d.total) by
            rw [hin]; exact hc), missingTotalCheck_fst]
      · unfold validate_math validate_math_core
        rw [if_neg (show ¬(0 < to_float d.total ∧ 0 < to_float d.pre_tax) by
            rintro ⟨_, hpre⟩; rw [h2] at hpre; exact lt_irrefl 0 hpre),
          if_neg (show ¬(0 < to_float d.total ∧ to_float d.pre_tax = 0 ∧
              0 < taxSumR d) by
            rintro ⟨_, _, hts1⟩; rw [hts, ← hts0] at hts1
            exact lt_irrefl 0 hts1),
          if_neg (show ¬(0 < to_float d.pre_tax ∧ to_float d.total = 0) by
            rintro ⟨hpre, _⟩; rw [h2] at hpre; exact lt_irrefl 0 hpre),
          missingTotalCheck_fst]
  · intro h1 h2
    unfold validate_math validate_math_core
    rw [if_neg (show ¬(0 < to_float d.total ∧ 0 < to_float d.pre_tax) by
        rintro ⟨htot, _⟩; rw [h1] at htot; exact lt_irrefl 0 htot),
      if_neg (show ¬(0 < to_float d.total ∧ to_float d.pre_tax = 0 ∧
          0 < taxSumR d) by
        rintro ⟨htot, _⟩; rw [h1] at htot; exact lt_irrefl 0 htot),
      if_pos ⟨h2, h1⟩, missingTotalCheck_fst]
    rw [hts, round2_cents (isCents_add hp (isCents_taxSumOf hg hps hh hq))]

theorem c1_validate_math_witness :
    validate_math c1data [] =
      ({ c1data with pre_tax := some ((33 : ℚ) / 2) },
        [.mathAdjustedPretax 15 ((33 : ℚ) / 2)]) := by
  have e1 : to_float c1data.total = 37 / 2 := by
    norm_num [c1data, to_float, clamp0]
  have e2 : to_float c1data.pre_tax = 15 := by
    norm_num [c1data, to_float, clamp0]
  have e3 : taxSumOf c1data = 2 := by
    norm_num [taxSumOf, c1data, to_float, clamp0]
  have h1 : IsCents (to_float c1data.total) := by
    rw [e1]; exact ⟨1850, by norm_num⟩
  have h2 : IsCents (to_float c1data.pre_tax) := by
    rw [e2]; exact ⟨1500, by norm_num⟩
  have h3 : IsCents (to_float c1data.gst) := by
    have : to_float c1data.gst = 2 := by norm_num [c1data, to_float, clamp0]
    rw [this]; exact ⟨200, by norm_num⟩
  have hz : IsCents (0 : ℚ) := ⟨0, by norm_num⟩
  have h4 : IsCents (to_float c1data.pst) := by
    have : to_float c1data.pst = 0 := by norm_num [c1data, to_float, clamp0]
    rw [this]; exact hz
  have h5 : IsCents (to_float c1data.hst) := by
    have : to_float c1data.hst = 0 := by norm_num [c1data, to_float, clamp0]
    rw [this]; exact hz
  have h6 : IsCents (to_float c1data.qst) := by
    have : to_float c1data.qst = 0 := by norm_num [c1data, to_float, clamp0]
    rw [this]; exact hz
  have habs : |to_float c1data.pre_tax + taxSumOf c1data -
      to_float c1data.total| = 3 / 2 := by
    rw [e1, e2, e3]
    rw [show (15 : ℚ) + 2 - 37 / 2 = -(3 / 2) by norm_num, abs_neg,
      abs_of_pos (by norm_num : (0 : ℚ) < 3 / 2)]
  have happ := ((c1_validate_math c1data [] h1 h2 h3 h4 h5 h6).1
      (by rw [e1]; norm_num) (by rw [e2]; norm_num)).2.1
    (by rw [habs]; norm_num) (by rw [habs]; norm_num)
  rw [happ, e1, e2, e3]
  norm_num

theorem foldl_sub_penalties (ws : List Warning) (b : ℚ) :
    ws.foldl (fun b w => b - penaltyOf w) b = b - (ws.map penaltyOf).sum := by
  induction ws generalizing b with
  | nil => simp
  | cons w t ih =>
    rw [List.foldl_cons, ih, List.map_cons, List.sum_cons]
    ring

/-- C2 (amended): the confidence adjustment subtracts one penalty per
warning — each warning contributes its category's penalty, repeats
included — and adds a flat 0.05 for a truthy vendor, a truthy date, a
positive total, and a positive gst, hst or qst (pst grants no bonus),
clamping to [0, 1] and rounding to three decimals. -/
theorem c2_confidence_amended (d : RData) (ws : List Warning) :
    adjust_confidence d ws =
      round3 (max 0 (min 1 (d.confidence.getD (1 / 2) -
        (ws.map penaltyOf).sum +
        ((if truthyStr d.vendor = true then (5 : ℚ) / 100 else 0) +
         (if truthyStr d.date = true then (5 : ℚ) / 100 else 0) +
         (if 0 < to_float d.total then (5 : ℚ) / 100 else 0) +
         (if 0 < to_float d.gst ∨ 0 < to_float d.hst ∨ 0 < to_float d.qst
          then (5 : ℚ) / 100 else 0))))) := by
  unfold adjust_confidence bonus penalizedBase
  rw [foldl_sub_penalties]
  refine congrArg round3 (congrArg (max 0) (congrArg (min 1) ?_))
  split_ifs <;> ring

theorem round3_thousandths {q : ℚ} (h : ∃ n : ℤ, q = (n : ℚ) / 1000) :
    round3 q = q := by
  obtain ⟨n, rfl⟩ := h
  unfold round3
  have : (n : ℚ) / 1000 * 1000 = (n : ℚ) := by ring
  rw [this, rndHalfEven_intCast]

/-- C2 (counterexample): the claim as stated fails on the code.  Two
warnings of the same category are each penalized: with base 0.5 and two
`MATH_MISMATCH` warnings the code yields 0.1, not the 0.3 a single 0.20
penalty per category would give.  A positive pst earns no tax bonus: with
base 0.5 and `pst = 1` the code yields 0.5, not 0.55. -/
theorem c2_confidence_counterexample :
    adjust_confidence c2data1
        [.mathMismatch 1 1 1 1, .mathMismatch 2 2 2 2] = 1 / 10 ∧
      ((1 : ℚ) / 10 ≠ 3 / 10) ∧
      adjust_confidence c2data2 [] = 1 / 2 ∧ ((1 : ℚ) / 2 ≠ 11 / 20) := by
  refine ⟨?_, by norm_num, ?_, by norm_num⟩
  · have hbase : penalizedBase c2data1
        [.mathMismatch 1 1 1 1, .mathMismatch 2 2 2 2] = 1 / 10 := by
      unfold penalizedBase
      simp [c2data1, penaltyOf]
      norm_num
    unfold adjust_confidence bonus
    rw [hbase]
    norm_num [c2data1, truthyStr, to_float, clamp0]
    exact round3_thousandths ⟨100, by norm_num⟩
  · have hbase : penalizedBase c2data2 [] = 1 / 2 := by
      unfold penalizedBase
      simp [c2data2, c2data1]
    unfold adjust_confidence bonus
    rw [hbase]
    norm_num [c2data2, c2data1, truthyStr, to_float, clamp0]
    exact round3_thousandths ⟨500, by norm_num⟩

/-- C3 (amended): merge precedence as the code implements it — for each of
gst, qst, pst, hst, pre_tax the deterministic value wins exactly when it is
present (non-None) and the model's is empty (falsy); for total, when both
are present and differ by more than 1.00 the deterministic value wins; for
vendor and date the deterministic value is used only when the model's value
is empty, and the model's value is kept whenever it is non-empty. -/
theorem c3_merge_amended (llm det : MergeData) :
    ((det.gst ≠ none ∧ falsyQ llm.gst = true →
        (merge_with_deterministic llm det).gst = det.gst) ∧
      (¬(det.gst ≠ none ∧ falsyQ llm.gst = true) →
        (merge_with_deterministic llm det).gst = llm.gst)) ∧
    ((det.qst ≠ none ∧ falsyQ llm.qst = true →
        (merge_with_deterministic llm det).qst = det.qst) ∧
      (¬(det.qst ≠ none ∧ falsyQ llm.qst = true) →
        (merge_with_deterministic llm det).qst = llm.qst)) ∧
    ((det.pst ≠ none ∧ falsyQ llm.pst = true →
        (merge_with_deterministic llm det).pst = det.pst) ∧
      (¬(det.pst ≠ none ∧ falsyQ llm.pst = true) →
        (merge_with_deterministic llm det).pst = llm.pst)) ∧
    ((det.hst ≠ none ∧ falsyQ llm.hst = true →
        (merge_with_deterministic llm det).hst = det.hst) ∧
      (¬(det.hst ≠ none ∧ falsyQ llm.hst = true) →
        (merge_with_deterministic llm det).hst = llm.hst)) ∧
    ((det.pre_tax ≠ none ∧ falsyQ llm.pre_tax = true →
        (merge_with_deterministic llm det).pre_tax = det.pre_tax) ∧
      (¬(det.pre_tax ≠ none ∧ falsyQ llm.pre_tax = true) →
        (merge_with_deterministic llm det).pre_tax = llm.pre_tax)) ∧
    (truthyQ det.total = true → llm.total.getD 0 ≠ 0 →
      1 < |det.total.getD 0 - llm.total.getD 0| →
      (merge_with_deterministic llm det).total = det.total) ∧
    ((truthyStr det.vendor = true ∧ falsyS llm.vendor = true →
        (merge_with_deterministic llm det).vendor = det.vendor) ∧
      (falsyS llm.vendor = false →
        (merge_with_deterministic llm det).vendor = llm.vendor)) ∧
    ((truthyStr det.date = true ∧ falsyS llm.date = true →
        (merge_with_deterministic llm det).date = det.date) ∧
      (falsyS llm.date = false →
        (merge_with_deterministic llm det).date = llm.date)) := by
  refine ⟨⟨?_, ?_⟩, ⟨?_, ?_⟩, ⟨?_, ?_⟩, ⟨?_, ?_⟩, ⟨?_, ?_⟩, ?_, ⟨?_, ?_⟩,
    ⟨?_, ?_⟩⟩
  · intro hc
    show mergePickQ det.gst llm.gst = det.gst
    unfold mergePickQ; rw [if_pos hc]
  · intro hc
    show mergePickQ det.gst llm.gst = llm.gst
    unfold mergePickQ; rw [if_neg hc]
  · intro hc
    show mergePickQ det.qst llm.qst = det.qst
    unfold mergePickQ; rw [if_pos hc]
  · intro hc
    show mergePickQ det.qst llm.qst = llm.qst
    unfold mergePickQ; rw [if_neg hc]
  · intro hc
    show mergePickQ det.pst llm.pst = det.pst
    unfold mergePickQ; rw [if_pos hc]
  · intro hc
    show mergePickQ det.pst llm.pst = llm.pst
    unfold mergePickQ; rw [if_neg hc]
  · intro hc
    show mergePickQ det.hst llm.hst = det.hst
    unfold mergePickQ; rw [if_pos hc]
  · intro hc
    show mergePickQ det.hst llm.hst = llm.hst
    unfold mergePickQ; rw [if_neg hc]
  · intro hc
    show mergePickQ det.pre_tax llm.pre_tax = det.pre_tax
    unfold mergePickQ; rw [if_pos hc]
  · intro hc
    show mergePickQ det.pre_tax llm.pre_tax = llm.pre_tax
    unfold mergePickQ; rw [if_neg hc]
  · intro h1 h2 h3
    show mergeTotal det.total llm.total = det.total
    unfold mergeTotal; rw [if_pos ⟨h1, h2, h3⟩]
  · intro hc
    show mergeStr det.vendor llm.vendor = det.vendor
    unfold mergeStr; rw [if_pos hc]
  · intro hf
    show mergeStr det.vendor llm.vendor = llm.vendor
    unfold mergeStr
    rw [if_neg]
    rintro ⟨_, h2⟩
    rw [hf] at h2
    exact Bool.false_ne_true h2
  · intro hc
    show mergeStr det.date llm.date = det.date
    unfold mergeStr; rw [if_pos hc]
  · intro hf
    show mergeStr det.date llm.date = llm.date
    unfold mergeStr
    rw [if_neg]
    rintro ⟨_, h2⟩
    rw [hf] at h2
    exact Bool.false_ne_true h2

theorem c3_merge_amended_witness :
    (merge_with_deterministic c3wllm c3wdet).gst = c3wdet.gst ∧
      (merge_with_deterministic c3wllm c3wdet).total = c3wdet.total ∧
      (merge_with_deterministic c3wllm c3wdet).vendor = c3wllm.vendor := by
  have h := c3_merge_amended c3wllm c3wdet
  refine ⟨h.1.1 ⟨by simp [c3wdet], by simp [c3wllm, falsyQ]⟩, ?_, ?_⟩
  · exact h.2.2.2.2.2.1 (by norm_num [c3wdet, truthyQ, falsyQ])
      (by norm_num [c3wllm]) (by norm_num [c3wdet, c3wllm])
  · exact h.2.2.2.2.2.2.1.2 (by simp [c3wllm, falsyS, truthyStr])

/-- C3 (counterexample): the claim as stated fails on the code for vendor
and date.  With a model vendor `A` and a deterministic vendor `B`, the
merge keeps the model's `A` even though the deterministic value is not
null, contradicting "model kept only if deterministic is null; otherwise
the deterministic value is used". -/
theorem c3_merge_counterexample :
    (merge_with_deterministic c3cllm c3cdet).vendor = some ['A'] ∧
      c3cdet.vendor = some ['B'] ∧
      (merge_with_deterministic c3cllm c3cdet).vendor ≠ c3cdet.vendor := by
  have hv : (merge_with_deterministic c3cllm c3cdet).vendor = some ['A'] := by
    show mergeStr c3cdet.vendor c3cllm.vendor = some ['A']
    unfold mergeStr
    rw [if_neg]
    · rfl
    · rintro ⟨_, h2⟩
      simp [c3cllm, falsyS, truthyStr] at h2
  refine ⟨hv, rfl, ?_⟩
  rw [hv]
  simp [c3cdet]

/-- C8: for every byte string the decoder rejects,
`ReceiptImagePipeline.process` returns exactly the original input bytes,
and the embedded pipeline is a total function (no exception escapes:
`_load` catches every decode error and the remaining stages are total
library transforms). -/
theorem c8_image_passthrough {Img : Type} (M : ImageOps Img) (raw : List ℕ)
    (h : M.load raw = none) : imageProcess M raw = raw := by
  unfold imageProcess
  rw [h]

theorem c8_image_passthrough_witness :
    rejectAllOps.load [7] = none ∧ imageProcess rejectAllOps [7] = [7] :=
  ⟨rfl, c8_image_passthrough rejectAllOps [7] rfl⟩

